import Mathlib

/-!
# Verification of the snakeql query engine

A shallow embedding of the snakeql sources (`snakeql/core.py`,
`snakeql/functions.py`, `snakeql/lexer.py`, `snakeql/parser.py`) into Lean 4,
together with theorems settling the frozen claims about the natural-language
specification.

Modelling conventions:

* Python is unityped, so the whole runtime value domain (records, literals,
  and the field-expression objects themselves, which Python treats as
  first-class values) is a single inductive type `Value`.  The constructors
  prefixed `f` are the `Field` subclasses of `core.py`.
* Machine-level aspects that the claims do not touch are left out of the value
  domain: floating-point numbers, Python `set` objects, random numbers and
  regular-expression matching (`re.match` inside the `MATCHES` operator).
  Operations of the source whose result falls outside the modelled domain
  return `Option.none`, the same encoding used for Python exceptions.
* Records are modelled by `Value.obj`, a finite string-keyed structure
  readable both through `getattr` (like a dataclass/namedtuple) and through
  `obj[key]` (like a dict); records that support only one of the two accesses
  are a special case.
* Failure (any raised exception: `AttributeError`, `TypeError`,
  `AssertionError`, `ValueError`, `StopIteration`, ...) is `Option.none`;
  the claims under study never distinguish exception classes except through
  the message strings of `SelectResult.one`, which keeps its own `Except`.
-/

/-- The distinct Python function objects that appear as the `func` member of
`FunctionField` / `OperatorField` nodes (`core.py` operator table and the
scalar registrations of `functions.py`).  `_equals` compares `func` by
identity (`self.func is not other.func`), which equality of this enum models. -/
inductive Fn where
  | and_ | or_ | not_ | in_ | matches
  | eq | ne | lt | le | gt | ge
  | add | sub | mul | truediv | mod | pow
  | is_ | contains | fnmatch
  | abs | round | concat | pystr | upper | lower | replace | len
  | randint | random
deriving DecidableEq, Repr

/-- The Python function objects used as the `func` member of
`AggregateFunctionField` nodes (aggregate registrations of `functions.py`). -/
inductive AggFn where
  | count | sum | max | min | list | tuple | set
  | product | join | first | average | weighted_average
deriving DecidableEq, Repr

/-- The Python runtime values manipulated by snakeql: literals, containers,
records, and the `Field` objects of `core.py` themselves (constructors with an
`f` prefix).  `fIdentity` doubles as the module-level object `o`
(`core.py` line 287): `IdentityField` has no state, so all its instances are
structurally indistinguishable. -/
inductive Value where
  | none
  | bool (b : Bool)
  | int (n : Int)
  | str (s : String)
  | list (xs : List Value)
  | tuple (xs : List Value)
  | obj (attrs : List (String × Value))
  | fIdentity
  | fAttr (a : String)
  | fKey (k : Value)
  | fConst (v : Value)
  | fList (fs : List Value)
  | fAlias (f : Value) (name : String)
  | fFunc (fn : Fn) (args : List Value) (name : String)
  | fOp (fn : Fn) (args : List Value) (name : String)
  | fAgg (fn : AggFn) (args : List Value) (name : String)
deriving Repr

/-- The module-level `o = IdentityField()` of `core.py` line 287. -/
def oIdent : Value := Value.fIdentity

/-- Whether a value is an instance of the `Field` abstract base class. -/
def isField : Value → Bool
  | .fIdentity | .fAttr _ | .fKey _ | .fConst _ | .fList _
  | .fAlias _ _ | .fFunc _ _ _ | .fOp _ _ _ | .fAgg _ _ _ => true
  | _ => false

/-- Python `isinstance(x, (list, tuple))`, the sequence test of `SELECT`. -/
def isSeq : Value → Bool
  | .list _ | .tuple _ => true
  | _ => false

/-- The elements of a list or tuple value (elements of other values are not
iterated anywhere the claims reach). -/
def seqElems : Value → List Value
  | .list xs => xs
  | .tuple xs => xs
  | _ => []

/-- Python truthiness.  Objects without `__bool__`/`__len__` — records and
`Field` instances — are truthy. -/
def truthy : Value → Bool
  | .none => false
  | .bool b => b
  | .int n => n != 0
  | .str s => s != ""
  | .list xs => !xs.isEmpty
  | .tuple xs => !xs.isEmpty
  | .obj _ => true
  | _ => true

/-! ## Python value equality and ordering

These model the builtin `==` and `<`/`<=` of CPython as used by the engine:
in membership tests, `sorted`, `itertools.groupby`, duplicate elimination and
the `==` of `_equals`, the result of a rich comparison is always converted to
a truth value, so the functions below return the truthiness of the comparison.
A `Field` operand makes the comparison dispatch to the overloaded operator
methods of `core.py`, whose result is an `OperatorField` — a truthy object —
hence the `isField` short-circuits.  `Option.none` models `TypeError`. -/

mutual

/-- Python `bool(x == y)`.  Records (`Value.obj`) are compared structurally,
modelling dataclass/namedtuple value equality. -/
def pyEqB : Value → Value → Bool
  | .none, .none => true
  | .bool a, .bool b => a == b
  | .bool a, .int n => (if a then (1 : Int) else 0) == n
  | .int n, .bool b => n == (if b then (1 : Int) else 0)
  | .int a, .int b => a == b
  | .str a, .str b => a == b
  | .list xs, .list ys => pyEqList xs ys
  | .tuple xs, .tuple ys => pyEqList xs ys
  | .obj xs, .obj ys => pyEqAttrs xs ys
  | a, b => isField a || isField b

/-- Elementwise `==` of two Python sequences. -/
def pyEqList : List Value → List Value → Bool
  | [], [] => true
  | x :: xs, y :: ys => pyEqB x y && pyEqList xs ys
  | _, _ => false

/-- Fieldwise `==` of two records. -/
def pyEqAttrs : List (String × Value) → List (String × Value) → Bool
  | [], [] => true
  | (k, v) :: xs, (k', v') :: ys => k == k' && pyEqB v v' && pyEqAttrs xs ys
  | _, _ => false

end

/-- Lexicographic `<` on strings by code point (Python `str.__lt__`). -/
def charListLt : List Char → List Char → Bool
  | [], [] => false
  | [], _ :: _ => true
  | _ :: _, [] => false
  | a :: as, b :: bs => if a == b then charListLt as bs else decide (a < b)

mutual

/-- Python `bool(x < y)`; `Option.none` is `TypeError` (incomparable values,
e.g. `None`, records, or cross-type pairs). -/
def pyLt : Value → Value → Option Bool
  | .bool a, .bool b => some (decide ((if a then (1 : Int) else 0) < (if b then 1 else 0)))
  | .bool a, .int n => some (decide ((if a then (1 : Int) else 0) < n))
  | .int n, .bool b => some (decide (n < (if b then (1 : Int) else 0)))
  | .int a, .int b => some (decide (a < b))
  | .str a, .str b => some (charListLt a.data b.data)
  | .list xs, .list ys => pyLtSeq xs ys
  | .tuple xs, .tuple ys => pyLtSeq xs ys
  | a, b => if isField a || isField b then some true else Option.none

/-- Lexicographic `<` of two Python sequences: skip `==`-equal prefixes, then
compare the first differing elements with `<`; a strict prefix is smaller. -/
def pyLtSeq : List Value → List Value → Option Bool
  | [], [] => some false
  | [], _ :: _ => some true
  | _ :: _, [] => some false
  | x :: xs, y :: ys => if pyEqB x y then pyLtSeq xs ys else pyLt x y

/-- Python `bool(x <= y)`; `Option.none` is `TypeError`. -/
def pyLe : Value → Value → Option Bool
  | .bool a, .bool b => some (decide ((if a then (1 : Int) else 0) ≤ (if b then 1 else 0)))
  | .bool a, .int n => some (decide ((if a then (1 : Int) else 0) ≤ n))
  | .int n, .bool b => some (decide (n ≤ (if b then (1 : Int) else 0)))
  | .int a, .int b => some (decide (a ≤ b))
  | .str a, .str b => some (a == b || charListLt a.data b.data)
  | .list xs, .list ys => pyLeSeq xs ys
  | .tuple xs, .tuple ys => pyLeSeq xs ys
  | a, b => if isField a || isField b then some true else Option.none

/-- Lexicographic `<=` of two Python sequences. -/
def pyLeSeq : List Value → List Value → Option Bool
  | [], _ => some true
  | _ :: _, [] => some false
  | x :: xs, y :: ys => if pyEqB x y then pyLeSeq xs ys else pyLt x y

end

/-- Translate a possibly negative Python index into a list position. -/
def normIndex (n : Int) (len : Nat) : Option Nat :=
  if 0 ≤ n ∧ n < len then some n.toNat
  else if -(len : Int) ≤ n ∧ n < 0 then some (len + n).toNat
  else Option.none

/-- A Python index key as an `Int` (`bool` is an `int` subtype). -/
def indexKey : Value → Option Int
  | .int n => some n
  | .bool b => some (if b then 1 else 0)
  | _ => Option.none

/-- Python subscription `container[key]` for the modelled domain:
sequences and strings by integer index, records by string key (dict-style). -/
def pyGetItem : Value → Value → Option Value
  | .list xs, k => do xs.get? (← normIndex (← indexKey k) xs.length)
  | .tuple xs, k => do xs.get? (← normIndex (← indexKey k) xs.length)
  | .str s, k => do
      let i ← normIndex (← indexKey k) s.data.length
      let c ← s.data.get? i
      pure (Value.str (String.mk [c]))
  | .obj attrs, .str s =>
      match attrs.find? (fun p => p.1 == s) with
      | some p => some p.2
      | Option.none => Option.none
  | _, _ => Option.none

/-! ## Field classification and structural equality (`core.py`) -/

mutual

/-- `Field._is_mapper` ("f(x) -> y", the spec's *is_scalar*): true for the
record-access leaves and constants, all-children for compounds, false for
`AggregateFunctionField`.  A non-`Field` value has no `_is_mapper` attribute
(`AttributeError`), modelled as `false` — every call site of the source
treats the raised exception as a failed construction and every such site is
embedded as a guard on this function. -/
def _is_mapper : Value → Bool
  | .fList fs => allMapper fs
  | .fKey _ => true
  | .fAttr _ => true
  | .fIdentity => true
  | .fAlias f _ => _is_mapper f
  | .fConst _ => true
  | .fFunc _ args _ => allMapper args
  | .fOp _ args _ => allMapper args
  | .fAgg _ _ _ => false
  | _ => false

/-- Python `all(f._is_mapper() for f in fields)`. -/
def allMapper : List Value → Bool
  | [] => true
  | f :: fs => _is_mapper f && allMapper fs

end

mutual

/-- `Field._is_aggregator` ("f([x1..xn]) -> y", the spec's *is_aggregate*). -/
def _is_aggregator : Value → Bool
  | .fList fs => allAggregator fs
  | .fKey _ => false
  | .fAttr _ => false
  | .fIdentity => false
  | .fAlias f _ => _is_aggregator f
  | .fConst _ => true
  | .fFunc _ args _ => allAggregator args
  | .fOp _ args _ => allAggregator args
  | .fAgg _ _ _ => true
  | _ => false

/-- Python `all(f._is_aggregator() for f in fields)`. -/
def allAggregator : List Value → Bool
  | [] => true
  | f :: fs => _is_aggregator f && allAggregator fs

end

mutual

/-- `Field._equals`, the structural-equality method.  An `AliasField` on the
left compares its wrapped field (`AliasField._equals`); every other variant
first forwards `other._equals(self)` when `other` is an `AliasField` — note
the argument swap — and otherwise requires the same concrete class, equal
semantic members (`func` compared by identity, display names ignored for
function/operator nodes) and pairwise `_equals` of children after a length
check.  The result of the `==` inside `KeyField._equals` /
`ConstantField._equals` is used by every caller in a truth context, hence
`pyEqB`. -/
def _equals : Value → Value → Bool
  | .fAlias f _, other => _equals f other
  | a, .fAlias g _ => _equals g a
  | .fList fs, .fList gs => decide (fs.length = gs.length) && _equalsList fs gs
  | .fKey k, .fKey k' => pyEqB k k'
  | .fAttr a, .fAttr a' => a == a'
  | .fIdentity, .fIdentity => true
  | .fConst v, .fConst w => pyEqB v w
  | .fFunc fn args _, .fFunc fn' args' _ =>
      fn == fn' && decide (args.length = args'.length) && _equalsList args args'
  | .fOp fn args _, .fOp fn' args' _ =>
      fn == fn' && decide (args.length = args'.length) && _equalsList args args'
  | .fAgg fn args _, .fAgg fn' args' _ =>
      fn == fn' && decide (args.length = args'.length) && _equalsList args args'
  | _, _ => false
termination_by a b => sizeOf a + sizeOf b

/-- The `zip`-style pairwise comparison inside `ListField._equals` and
`FunctionField._equals`: stops at the shorter list (the callers check the
lengths first). -/
def _equalsList : List Value → List Value → Bool
  | x :: xs, y :: ys => _equals x y && _equalsList xs ys
  | _, _ => true
termination_by a b => sizeOf a + sizeOf b

end

/-- `field_index(needle, haystack)` with its running `enumerate` counter. -/
def fieldIndexAux (needle : Value) : List Value → Nat → Option Nat
  | [], _ => Option.none
  | c :: cs, i => if _equals needle c then some i else fieldIndexAux needle cs (i + 1)

/-- `core.field_index`: index of the first haystack entry structurally equal
to the needle, if any. -/
def field_index (needle : Value) (haystack : List Value) : Option Nat :=
  fieldIndexAux needle haystack 0

/-! ## Printing: Python `repr`, `str`, and the field renderers (`__str__`) -/

/-- The single-quote character. -/
def qch : Char := Char.ofNat 39

/-- The double-quote character. -/
def dqch : Char := Char.ofNat 34

/-- The backslash character. -/
def bsCh : Char := Char.ofNat 92

/-- The newline character. -/
def nlCh : Char := Char.ofNat 10

/-- Lowercase hex digit for a value below 16. -/
def hexDigit (n : Nat) : Char :=
  if n < 10 then Char.ofNat (48 + n) else Char.ofNat (87 + n)

/-- How CPython's `repr` escapes one character of a string literal, given the
chosen quote character: backslash and the quote are backslash-escaped, newline,
carriage return and tab use their mnemonic escapes, other control characters
use `\xhh`, and everything else prints as itself. -/
def pyReprChar (quote c : Char) : List Char :=
  if c == bsCh then [bsCh, bsCh]
  else if c == quote then [bsCh, quote]
  else if c == nlCh then [bsCh, Char.ofNat 110]
  else if c == Char.ofNat 13 then [bsCh, Char.ofNat 114]
  else if c == Char.ofNat 9 then [bsCh, Char.ofNat 116]
  else if c.toNat < 32 || c.toNat == 127 then
    [bsCh, Char.ofNat 120, hexDigit (c.toNat / 16), hexDigit (c.toNat % 16)]
  else [c]

/-- CPython `repr` of a string: single quotes, unless the string contains a
single quote and no double quote, in which case double quotes. -/
def pyReprStr (s : String) : String :=
  let quote := if s.data.contains qch && !s.data.contains dqch then dqch else qch
  String.mk (quote :: (s.data.flatMap (pyReprChar quote) ++ [quote]))

mutual

/-- Python `repr` for the modelled non-`Field` values.  For `Field` objects
(whose `__repr__` strings interpolate `self.func!r`, the address-bearing repr
of a Python function object) and records (whose repr carries their class
name), a placeholder is produced; no claim inspects those strings. -/
def pyRepr : Value → String
  | .none => "None"
  | .bool b => if b then "True" else "False"
  | .int n => toString n
  | .str s => pyReprStr s
  | .list xs => "[" ++ String.intercalate ", " (pyReprList xs) ++ "]"
  | .tuple [x] => "(" ++ pyRepr x ++ ",)"
  | .tuple xs => "(" ++ String.intercalate ", " (pyReprList xs) ++ ")"
  | .obj _ => "<record>"
  | _ => "<field>"

/-- `repr` of each element of a sequence. -/
def pyReprList : List Value → List String
  | [] => []
  | x :: xs => pyRepr x :: pyReprList xs

end

mutual

/-- `Field.__str__` for each variant of `core.py` — the parser-facing
rendering.  Binary `OperatorField`s print parenthesised infix, unary ones
prefix; `fields_to_str` applied to a single `Field` argument is `str` of it.
Applied to a non-`Field` value (which never happens in the engine), it
produces the empty string. -/
def render : Value → String
  | .fList fs => String.intercalate ", " (renderList fs)
  | .fKey k => "o[" ++ pyRepr k ++ "]"
  | .fAttr a => "o." ++ a
  | .fIdentity => "o"
  | .fAlias f n => render f ++ " AS " ++ n
  | .fConst v => pyRepr v
  | .fFunc _ args nm => nm ++ "(" ++ String.intercalate ", " (renderList args) ++ ")"
  | .fOp _ args nm =>
      match args with
      | [x, y] => "(" ++ render x ++ " " ++ nm ++ " " ++ render y ++ ")"
      | [x] => nm ++ " " ++ render x
      | _ => ""
  | .fAgg _ args nm => nm ++ "(" ++ String.intercalate ", " (renderList args) ++ ")"
  | _ => ""

/-- `str` of each field of a list. -/
def renderList : List Value → List String
  | [] => []
  | f :: fs => render f :: renderList fs

end

/-- Python `str()`: identity on strings, `__str__` (the renderer) on fields,
`repr` on the rest of the modelled domain. -/
def pyStr (v : Value) : String :=
  match v with
  | .str s => s
  | _ => if isField v then render v else pyRepr v

/-- `Field._name` of each variant: the key for `RETURNING` materialisation. -/
def _name : Value → Option String
  | .fList fs => some (String.intercalate "," (renderList fs))
  | .fKey (.str s) => some s
  | .fKey _ => Option.none
  | .fAttr a => some a
  | .fIdentity => some "o"
  | .fAlias _ n => some n
  | .fConst v => some (pyStr v)
  | .fFunc fn args nm => some (render (.fFunc fn args nm))
  | .fOp fn args nm => some (render (.fOp fn args nm))
  | .fAgg fn args nm => some (render (.fAgg fn args nm))
  | _ => Option.none

/-! ## Field construction and the operator table (`core.py` lines 64-146) -/

/-- `core.to_field`: pass a `Field` through, wrap anything else in
`ConstantField`. -/
def to_field (v : Value) : Value := if isField v then v else .fConst v

/-- `core.to_fields`. -/
def to_fields (vs : List Value) : List Value := vs.map to_field

/-- The method produced by `field_op(operator, op_str)`:
`OperatorField(operator, (self, to_field(other)), op_str)`. -/
def field_op (fn : Fn) (opStr : String) (self other : Value) : Value :=
  .fOp fn [self, to_field other] opStr

/-- `Field.AS` / `AliasField.__init__`: the constructor asserts
`re.match(r"[a-zA-Z_][a-zA-Z_0-9]*", name)`.  `re.match` anchors only at the
start (it is not `fullmatch`): it succeeds iff some prefix of `name` matches,
and since the trailing `*` accepts the empty string the test reduces to
"`name` is nonempty and its first character is in `[a-zA-Z_]`". -/
def identStartChar (c : Char) : Bool :=
  (65 ≤ c.toNat && c.toNat ≤ 90) || (97 ≤ c.toNat && c.toNat ≤ 122) || c == Char.ofNat 95

/-- Truth of `re.match(r"[a-zA-Z_][a-zA-Z_0-9]*", name)` (see
`identStartChar`). -/
def aliasNameOk (name : String) : Bool :=
  match name.data with
  | [] => false
  | c :: _ => identStartChar c

/-- `AliasField(field, name)`: assert the name pattern, then store
`to_field(field)`; a failed assert is a failed construction. -/
def AliasField_init (field : Value) (name : String) : Option Value :=
  if aliasNameOk name then some (.fAlias (to_field field) name) else Option.none

/-- `Field.__invert__` (and the free function `NOT`). -/
def fInvert (self : Value) : Value := .fOp .not_ [self] "NOT"

/-- `Field.IN`: wrap the right-hand side in a `ListField` of coerced
fields. -/
def fIN (self : Value) (others : List Value) : Value :=
  .fOp .in_ [self, .fList (to_fields others)] "IN"

/-- A Python `x and y` expression. -/
def pyAndV (x y : Value) : Value := if truthy x then y else x

/-- A Python `x or y` expression. -/
def pyOrV (x y : Value) : Value := if truthy x then x else y

/-- `core.and_`. -/
def and_ (x y : Value) : Value := pyAndV x y

/-- `core.or_` — the body of the source is `return o or y`: it references the
stray module-level identifier `o` (the `IdentityField` instance of line 287)
instead of its parameter `x`. -/
def or_ (_x y : Value) : Value := pyOrV oIdent y

/-- `core.not_`. -/
def not_ (x : Value) : Value := .bool (!truthy x)

/-- `p` is a prefix of `l`, elementwise. -/
def listPrefixB : List Char → List Char → Bool
  | [], _ => true
  | _ :: _, [] => false
  | a :: as, b :: bs => a == b && listPrefixB as bs

/-- Substring containment on code-point lists (Python `sub in s` for
strings). -/
def containsSub (sub : List Char) : List Char → Bool
  | [] => listPrefixB sub []
  | c :: cs => listPrefixB sub (c :: cs) || containsSub sub cs

/-- Python `x in y`: sequence membership compares each element of `y` to `x`
with `==` (in a truth context), string membership is substring containment.
Other containers raise `TypeError`. -/
def pyInV (x y : Value) : Option Value :=
  match y with
  | .list ys => some (.bool (ys.any (fun e => pyEqB e x)))
  | .tuple ys => some (.bool (ys.any (fun e => pyEqB e x)))
  | .str s =>
      match x with
      | .str sub => some (.bool (containsSub sub.data s.data))
      | _ => Option.none
  | _ => Option.none

/-- `core.in_`. -/
def in_ (x y : Value) : Option Value := pyInV x y

/-- `core.matches` calls `re.match(y, x)`: regular-expression matching is
outside the modelled domain, so every application is `Option.none`; no claim
evaluates a `MATCHES` node.  (`matches` is a reserved word in Lean, hence the
suffix.) -/
def matchesFn (_x _y : Value) : Option Value := Option.none

/-- Python `x == y` with operator dispatch: a `Field` operand (either side)
reaches `Field.__eq__`, producing an `OperatorField` node rather than a
boolean. -/
def dunderEq (a b : Value) : Value :=
  if isField a then field_op .eq "==" a b
  else if isField b then field_op .eq "==" b a
  else .bool (pyEqB a b)

/-- Python `x != y` with operator dispatch (see `dunderEq`). -/
def dunderNe (a b : Value) : Value :=
  if isField a then field_op .ne "!=" a b
  else if isField b then field_op .ne "!=" b a
  else .bool (!pyEqB a b)

/-- Python `x < y`: left `Field` dispatches to `Field.__lt__`, a right
`Field` to the reflected `Field.__gt__`; plain values use `pyLt`. -/
def dunderLt (a b : Value) : Option Value :=
  if isField a then some (field_op .lt "<" a b)
  else if isField b then some (field_op .gt ">" b a)
  else (pyLt a b).map .bool

/-- Python `x <= y` (reflected partner `__ge__`). -/
def dunderLe (a b : Value) : Option Value :=
  if isField a then some (field_op .le "<=" a b)
  else if isField b then some (field_op .ge ">=" b a)
  else (pyLe a b).map .bool

/-- Python `x > y` (reflected partner `__lt__`). -/
def dunderGt (a b : Value) : Option Value :=
  if isField a then some (field_op .gt ">" a b)
  else if isField b then some (field_op .lt "<" b a)
  else (pyLt b a).map .bool

/-- Python `x >= y` (reflected partner `__le__`). -/
def dunderGe (a b : Value) : Option Value :=
  if isField a then some (field_op .ge ">=" a b)
  else if isField b then some (field_op .le "<=" b a)
  else (pyLe b a).map .bool

/-- A numeric operand as a Python `int` (`bool` is an `int` subtype). -/
def asInt : Value → Option Int
  | .int n => some n
  | .bool b => some (if b then 1 else 0)
  | _ => Option.none

/-- Python `x + y` on plain values: integer addition and same-type sequence
concatenation; anything else in the modelled domain is `TypeError`. -/
def pyAddV (a b : Value) : Option Value :=
  match a, b with
  | .str x, .str y => some (.str (x ++ y))
  | .list x, .list y => some (.list (x ++ y))
  | .tuple x, .tuple y => some (.tuple (x ++ y))
  | a, b => do pure (.int ((← asInt a) + (← asInt b)))

/-- Python `x - y` on plain values. -/
def pySubV (a b : Value) : Option Value := do pure (.int ((← asInt a) - (← asInt b)))

/-- Python `x * y` on plain values: integer multiplication (sequence
repetition is outside the claims and not modelled). -/
def pyMulV (a b : Value) : Option Value := do pure (.int ((← asInt a) * (← asInt b)))

/-- Python `x % y` on plain integers: floor modulus, `ZeroDivisionError` on a
zero divisor (string formatting `%` is not modelled). -/
def pyModV (a b : Value) : Option Value := do
  let x ← asInt a
  let y ← asInt b
  if y = 0 then Option.none else pure (.int (Int.fmod x y))

/-- Python `x ** y` on plain integers: a negative exponent yields a float,
which is outside the modelled domain. -/
def pyPowV (a b : Value) : Option Value := do
  let x ← asInt a
  let y ← asInt b
  if 0 ≤ y then pure (.int (x ^ y.toNat)) else Option.none

/-- Python binary arithmetic dispatch: a left `Field` builds an operator
node (`field_op`); `Field` defines no reflected numeric methods (`__radd__`
and friends), so a plain left operand with a `Field` right operand is
`TypeError`. -/
def dunderArith (fn : Fn) (sym : String) (vop : Value → Value → Option Value)
    (a b : Value) : Option Value :=
  if isField a then some (field_op fn sym a b)
  else if isField b then Option.none
  else vop a b

/-- Python `x is y` for the modelled domain: decidable only for the `None`
and `bool` singletons; other identity comparisons are not modelled (no claim
uses them). -/
def pyIsV : Value → Value → Option Value
  | .none, .none => some (.bool true)
  | .bool a, .bool b => some (.bool (a == b))
  | _, _ => Option.none

/-- ASCII `str.upper` (Unicode case mapping is not modelled; the claims use
ASCII data only). -/
def asciiUpper (s : String) : String :=
  String.mk (s.data.map (fun c =>
    if 97 ≤ c.toNat && c.toNat ≤ 122 then Char.ofNat (c.toNat - 32) else c))

/-- ASCII `str.lower`. -/
def asciiLower (s : String) : String :=
  String.mk (s.data.map (fun c =>
    if 65 ≤ c.toNat && c.toNat ≤ 90 then Char.ofNat (c.toNat + 32) else c))

/-- The semantics of each registered scalar/operator function object of
`core.py` and `functions.py`, applied to already-evaluated argument values.
`Option.none` covers raised exceptions (wrong arity, `TypeError`) and the
parts of the builtin domain that the model excludes: floats (`truediv`,
`average`), randomness, `re`/`fnmatch` pattern matching. -/
def funcSem : Fn → List Value → Option Value
  | .and_, [x, y] => some (and_ x y)
  | .or_, [x, y] => some (or_ x y)
  | .not_, [x] => some (not_ x)
  | .in_, [x, y] => in_ x y
  | .matches, [x, y] => matchesFn x y
  | .eq, [a, b] => some (dunderEq a b)
  | .ne, [a, b] => some (dunderNe a b)
  | .lt, [a, b] => dunderLt a b
  | .le, [a, b] => dunderLe a b
  | .gt, [a, b] => dunderGt a b
  | .ge, [a, b] => dunderGe a b
  | .add, [a, b] => dunderArith .add "+" pyAddV a b
  | .sub, [a, b] => dunderArith .sub "-" pySubV a b
  | .mul, [a, b] => dunderArith .mul "*" pyMulV a b
  | .truediv, [a, b] =>
      if isField a then some (field_op .truediv "/" a b) else Option.none
  | .mod, [a, b] => dunderArith .mod "%" pyModV a b
  | .pow, [a, b] => dunderArith .pow "**" pyPowV a b
  | .is_, [a, b] => pyIsV a b
  | .contains, [a, b] => pyInV b a
  | .fnmatch, [_, _] => Option.none
  | .abs, [x] => do pure (.int (|(← asInt x)|))
  | .round, [x] => do pure (.int (← asInt x))
  | .round, [x, nd] => do
      let v ← asInt x
      let d ← asInt nd
      if 0 ≤ d then pure (.int v) else Option.none
  | .concat, [a, b] =>
      match a, b with
      | .str x, .str y => some (.str (x ++ y))
      | .list x, .list y => some (.list (x ++ y))
      | .tuple x, .tuple y => some (.tuple (x ++ y))
      | _, _ => Option.none
  | .pystr, [] => some (.str "")
  | .pystr, [x] => some (.str (pyStr x))
  | .upper, [x] => match x with | .str s => some (.str (asciiUpper s)) | _ => Option.none
  | .lower, [x] => match x with | .str s => some (.str (asciiLower s)) | _ => Option.none
  | .replace, [x, a, b] =>
      match x, a, b with
      | .str s, .str pat, .str rep =>
          if pat = "" then Option.none else some (.str (s.replace pat rep))
      | _, _, _ => Option.none
  | .len, [x] =>
      match x with
      | .str s => some (.int s.data.length)
      | .list xs => some (.int xs.length)
      | .tuple xs => some (.int xs.length)
      | _ => Option.none
  | .randint, _ => Option.none
  | .random, _ => Option.none
  | _, _ => Option.none

/-- The accumulating loop of `sum(column)`. -/
def sumIntsAux (acc : Int) : List Value → Option Int
  | [] => some acc
  | v :: vs => do sumIntsAux (acc + (← asInt v)) vs

/-- `sum(column)`: integer fold from `0`. -/
def sumInts (col : List Value) : Option Value := (sumIntsAux 0 col).map .int

/-- The accumulating loop of `product(column)` of `functions.py`. -/
def prodIntsAux (acc : Int) : List Value → Option Int
  | [] => some acc
  | v :: vs => do prodIntsAux (acc * (← asInt v)) vs

/-- `product(column)`: multiplicative fold from `1`. -/
def prodInts (col : List Value) : Option Value := (prodIntsAux 1 col).map .int

/-- `max(column)`: first element, replaced whenever a later item compares
strictly greater (`current < item` in a truth context). -/
def maxV : List Value → Option Value
  | [] => Option.none
  | x :: xs => xs.foldlM (fun m y => (pyLt m y).map (fun l => if l then y else m)) x

/-- `min(column)`. -/
def minV : List Value → Option Value
  | [] => Option.none
  | x :: xs => xs.foldlM (fun m y => (pyLt y m).map (fun l => if l then y else m)) x

/-- `"".join(column)`: all elements must be strings. -/
def joinStrs : List Value → Option String
  | [] => some ""
  | .str s :: xs => (joinStrs xs).map (fun r => s ++ r)
  | _ => Option.none

/-- The semantics of each registered aggregate function of `functions.py`,
applied to the per-argument columns (`AggregateFunctionField.__call__` hands
one tuple per argument subtree).  `set`, `average` and `weighted_average`
produce values outside the modelled domain (sets, floats). -/
def aggSem : AggFn → List (List Value) → Option Value
  | .count, [col] => some (.int col.length)
  | .sum, [col] => sumInts col
  | .max, [col] => maxV col
  | .min, [col] => minV col
  | .list, [col] => some (.list col)
  | .tuple, [col] => some (.tuple col)
  | .set, _ => Option.none
  | .product, [col] => prodInts col
  | .join, [col] => (joinStrs col).map .str
  | .first, [col] => col.head?
  | .average, _ => Option.none
  | .weighted_average, _ => Option.none
  | _, _ => Option.none

/-! ## Field evaluation (`Field.__call__`) -/

/-- `getattr(obj, a)`: record attribute lookup (`AttrField.__call__`);
`IdentityField.__getattr__` manufactures an `AttrField` (shadowing by the
class's own method names is not modelled); anything else raises
`AttributeError`. -/
def getattrV : Value → String → Option Value
  | .obj attrs, a =>
      match attrs.find? (fun p => p.1 == a) with
      | some p => some p.2
      | Option.none => Option.none
  | .fIdentity, a => some (.fAttr a)
  | _, _ => Option.none

mutual

/-- `Field.__call__(obj)` for every variant, the dynamic dispatch of
`core.py`: `ListField` maps itself over its children, the access leaves read
the record, `ConstantField` ignores it, function and operator nodes evaluate
their arguments on the record and apply their function, and
`AggregateFunctionField.__call__(objs)` iterates its (necessarily iterable)
argument once per argument subtree to build columns.  Calling a non-`Field`
value raises `TypeError`. -/
def call : Value → Value → Option Value
  | .fList fs, obj => (omapCall fs obj).map .list
  | .fKey k, obj => pyGetItem obj k
  | .fAttr a, obj => getattrV obj a
  | .fIdentity, obj => some obj
  | .fAlias f _, obj => call f obj
  | .fConst v, _ => some v
  | .fFunc fn args _, obj => do funcSem fn (← omapCall args obj)
  | .fOp fn args _, obj => do funcSem fn (← omapCall args obj)
  | .fAgg fn args _, obj =>
      match obj with
      | .list xs => do aggSem fn (← omapCols args xs)
      | .tuple xs => do aggSem fn (← omapCols args xs)
      | _ => Option.none
  | _, _ => Option.none
termination_by f _ => (sizeOf f, 0)

/-- Evaluate each field of a list on one record (`[f(obj) for f in fields]`
/ the argument tuple of `FunctionField.__call__`). -/
def omapCall : List Value → Value → Option (List Value)
  | [], _ => some []
  | f :: fs, obj => do pure ((← call f obj) :: (← omapCall fs obj))
termination_by fs _ => (sizeOf fs, 0)

/-- The columns of `AggregateFunctionField.__call__`: one tuple of
per-record evaluations for each argument subtree. -/
def omapCols : List Value → List Value → Option (List (List Value))
  | [], _ => some []
  | a :: as, xs => do pure ((← omapOver a xs) :: (← omapCols as xs))
termination_by as _ => (sizeOf as, 0)

/-- One column: `tuple(arg(obj) for obj in objs)`. -/
def omapOver : Value → List Value → Option (List Value)
  | _, [] => some []
  | a, x :: xs => do pure ((← call a x) :: (← omapOver a xs))
termination_by a xs => (sizeOf a, xs.length + 1)

end

/-! ## The query object and its pipeline (`core.py` lines 474-661) -/

/-- The seeded `_return_types` registry (`{"dict": dict}`); claims exercise
only the seeded entry. -/
inductive RetType where
  | dict
deriving DecidableEq, Repr

/-- `SelectQuery.__init__`'s member record.  `where_` avoids the Lean
keyword. -/
structure SelectQuery where
  fields : List Value
  flatten : Bool
  distinct : Bool
  where_ : Option Value
  group_by : Option (List Value)
  return_type : Option RetType
deriving Repr

/-- The `SELECT(*fields)` constructor: its argument-shape analysis decides
the projection and the `flatten` flag (`core.py` lines 474-489). -/
def SELECT (fields : List Value) : SelectQuery :=
  match fields with
  | [] => ⟨[.fIdentity], true, false, Option.none, Option.none, Option.none⟩
  | [f] =>
      if isSeq f then ⟨to_fields (seqElems f), false, false, Option.none, Option.none, Option.none⟩
      else ⟨[to_field f], true, false, Option.none, Option.none, Option.none⟩
  | fs => ⟨to_fields fs, false, false, Option.none, Option.none, Option.none⟩

/-- `SelectQuery.DISTINCT` (`_replace(distinct=True)`). -/
def SelectQuery.DISTINCT (q : SelectQuery) : SelectQuery :=
  ⟨q.fields, q.flatten, true, q.where_, q.group_by, q.return_type⟩

/-- `SelectQuery.WHERE`: asserts `where._is_mapper()` (an aggregate — or a
non-`Field`, whose attribute lookup raises — fails), then stores
`to_field(where)`. -/
def SelectQuery.WHERE (q : SelectQuery) (w : Value) : Option SelectQuery :=
  if _is_mapper w then
    some ⟨q.fields, q.flatten, q.distinct, some (to_field w), q.group_by, q.return_type⟩
  else Option.none

/-- `SelectQuery.GROUP_BY`: coerces the keys, asserts they are all scalar,
and raises `ValueError` unless every projection field is `_equals` to some
key or is an aggregator. -/
def SelectQuery.GROUP_BY (q : SelectQuery) (fs : List Value) : Option SelectQuery :=
  let fields := to_fields fs
  if allMapper fields then
    if q.fields.all (fun sf => (field_index sf fields).isSome || _is_aggregator sf) then
      some ⟨q.fields, q.flatten, q.distinct, q.where_, some fields, q.return_type⟩
    else Option.none
  else Option.none

/-- `SelectQuery.RETURNING`: sets the row constructor and forces
`flatten = False`. -/
def SelectQuery.RETURNING (q : SelectQuery) (rt : RetType) : SelectQuery :=
  ⟨q.fields, false, q.distinct, q.where_, q.group_by, some rt⟩

/-- `filter(self.where, res)`: keep the records where the predicate
evaluates truthy; an evaluation failure aborts the (lazily consumed, here
materialised) stream. -/
def ofilter (wf : Value) : List Value → Option (List Value)
  | [] => some []
  | r :: rs => do
      let v ← call wf r
      let rest ← ofilter wf rs
      pure (if truthy v then r :: rest else rest)

/-- `SelectQuery._where`. -/
def _where (w : Option Value) (res : List Value) : Option (List Value) :=
  match w with
  | Option.none => some res
  | some wf => ofilter wf res

/-- `SelectQuery._select` over plain records: one tuple of field values per
record. -/
def _selectT (fields : List Value) : List Value → Option (List Value)
  | [] => some []
  | r :: rs => do pure (Value.tuple (← omapCall fields r) :: (← _selectT fields rs))

/-! ### `sorted` and `itertools.groupby` (used by `_group`)

`sorted(pairs, key=KeyValuePair.key)` is a stable ascending sort comparing
keys with `<`; it is modelled by a stable insertion sort, defined — like
CPython, which raises `TypeError` on whichever incomparable pair its sort
algorithm happens to compare — only when the keys are pairwise comparable.
A `KeyValuePair` is modelled as a Lean pair `(key, value)`. -/

/-- The sort's comparison: truthiness of `key a < key b`. -/
def keyLtB (a b : Value) : Bool := (pyLt a b).getD false

/-- Insert a pair into an already sorted run, after every element whose key
is strictly smaller — so before earlier-inserted elements with an equal key,
which preserves the input order of equal keys (stability). -/
def insertKV (p : Value × Value) : List (Value × Value) → List (Value × Value)
  | [] => [p]
  | q :: qs => if keyLtB q.1 p.1 then q :: insertKV p qs else p :: q :: qs

/-- Stable insertion sort by key. -/
def isortKV : List (Value × Value) → List (Value × Value)
  | [] => []
  | p :: ps => insertKV p (isortKV ps)

/-- Pairwise comparability of a key list — the definedness condition of the
modelled `sorted`. -/
def allComparable (ks : List Value) : Bool :=
  ks.all (fun a => ks.all (fun b => (pyLt a b).isSome))

/-- `sorted(pairs, key=KeyValuePair.key)` (see the section comment). -/
def pySortedByKey (ps : List (Value × Value)) : Option (List (Value × Value)) :=
  if allComparable (ps.map (fun p => p.1)) then some (isortKV ps) else Option.none

/-- The run of leading pairs whose key compares `==` to the group key, and
the remainder — the two halves maintained by one `itertools.groupby` group. -/
def gosplit (k : Value) : List (Value × Value) → List (Value × Value) × List (Value × Value)
  | [] => ([], [])
  | p :: ps =>
      if pyEqB p.1 k then
        let pr := gosplit k ps
        (p :: pr.1, pr.2)
      else ([], p :: ps)

/-- The remainder returned by `gosplit` is no longer than its input. -/
theorem gosplit_rest_length (k : Value) (l : List (Value × Value)) :
    (gosplit k l).2.length ≤ l.length := by
  induction l with
  | nil => simp [gosplit]
  | cons p ps ih =>
      by_cases h : pyEqB p.1 k
      · simp only [gosplit, h, if_pos, List.length_cons]
        omega
      · simp [gosplit, h]

/-- `itertools.groupby(pairs, key=KeyValuePair.key)`: maximal runs of
consecutive pairs whose keys compare `==` to the key of the run's first
pair; each group is that first key together with the run's values. -/
def pyGroupby : List (Value × Value) → List (Value × List Value)
  | [] => []
  | p :: ps =>
      let pr := gosplit p.1 ps
      (p.1, p.2 :: pr.1.map (fun q => q.2)) :: pyGroupby pr.2
termination_by l => l.length
decreasing_by
  simp only [List.length_cons]
  exact Nat.lt_succ_of_le (gosplit_rest_length _ _)

/-- `SelectQuery._group`: materialise the records, key each by the tuple of
`group_by` field values, stable-sort by key, and group consecutive equal
keys. -/
def _group (gbs : List Value) (res : List Value) : Option (List (Value × List Value)) := do
  let keys ← _selectT gbs res
  let sorted ← pySortedByKey (keys.zip res)
  pure (pyGroupby sorted)

/-- `SelectQuery._make_group_by_field`: a projection field found in the
`GROUP BY` list reads `pair.key()[idx]`; otherwise the field must be an
aggregate and is applied to the group's record list (`select_field(pair.value())`). -/
def _make_group_by_field (gbs : List Value) (sf : Value) (pair : Value × List Value) :
    Option Value :=
  match field_index sf gbs with
  | some idx => pyGetItem pair.1 (.int idx)
  | Option.none => call sf (.list pair.2)

/-- One row of the grouped projection: `_make_group_by_field` of every
projection field applied to one `(key, records)` group. -/
def omapGB (gbs : List Value) : List Value → (Value × List Value) → Option (List Value)
  | [], _ => some []
  | f :: fs, g => do pure ((← _make_group_by_field gbs f g) :: (← omapGB gbs fs g))

/-- `SelectQuery._select` over the groups produced by `_group`, with the
per-field functions produced by `_make_group_by_field`. -/
def _selectG (gbs fields : List Value) : List (Value × List Value) → Option (List Value)
  | [] => some []
  | g :: gs => do pure (Value.tuple (← omapGB gbs fields g) :: (← _selectG gbs fields gs))

/-- `(r[0] for r in res)`: the body of the flattening branch. -/
def oflatten : List Value → Option (List Value)
  | [] => some []
  | r :: rs => do pure ((← pyGetItem r (.int 0)) :: (← oflatten rs))

/-- `SelectQuery._flatten`. -/
def _flatten (b : Bool) (res : List Value) : Option (List Value) :=
  if b then oflatten res else some res

/-- The deduplication loop of `SelectQuery._distinct`: keep a row iff no
`==`-equal row was seen before (the source keeps a hash set; the claims
never reach unhashable rows, for which CPython would raise `TypeError`). -/
def dedupPy (seen : List Value) : List Value → List Value
  | [] => []
  | r :: rs =>
      if seen.any (fun s => pyEqB s r) then dedupPy seen rs
      else r :: dedupPy (r :: seen) rs

/-- `SelectQuery._distinct`. -/
def _distinct (d : Bool) (res : List Value) : List Value :=
  if d then dedupPy [] res else res

/-- `[f._name() for f in self.fields]` — fails if some `_name` does (e.g. a
non-string `KeyField` key used as a keyword argument). -/
def onames : List Value → Option (List String)
  | [] => some []
  | f :: fs => do pure ((← _name f) :: (← onames fs))

/-- `self.return_type(**dict(zip(names, r)))` for each row, for the seeded
`dict` return type: `zip` pairs the names with the row's elements (stopping
at the shorter), and the constructed mapping is a string-keyed record. -/
def oreturn (names : List String) : List Value → Option (List Value)
  | [] => some []
  | .tuple vs :: rs => do pure (Value.obj (names.zip vs) :: (← oreturn names rs))
  | .list vs :: rs => do pure (Value.obj (names.zip vs) :: (← oreturn names rs))
  | _ :: _ => Option.none

/-- `SelectQuery._returning`. -/
def _returning (rt : Option RetType) (fields : List Value) (res : List Value) :
    Option (List Value) :=
  match rt with
  | Option.none => some res
  | some .dict => do oreturn (← onames fields) res

/-- `SelectQuery.__call__`: filter, then either the plain projection (after
raising `ValueError` if any projection field is an aggregate and `GROUP BY`
is absent) or the grouped projection, then flatten, distinct and
return-shaping.  The source returns a lazy `SelectResult`; the model
materialises it, with any error raised during iteration collapsing the
result to `Option.none`. -/
def SelectQuery.call (q : SelectQuery) (objects : List Value) : Option (List Value) := do
  let res ← _where q.where_ objects
  let res ←
    match q.group_by with
    | Option.none => if q.fields.all _is_mapper then _selectT q.fields res else Option.none
    | some gbs => do _selectG gbs q.fields (← _group gbs res)
  let res ← _flatten q.flatten res
  let res := _distinct q.distinct res
  _returning q.return_type q.fields res

/-- `SelectResult.one` on the materialised result: a first `next` whose
`StopIteration` raises `ValueError` with the source's first message (the
spec's *EmptyResult*), a second `next` whose success raises the second
message (*AmbiguousResult*), otherwise the single row. -/
def SelectResult_one (rows : List Value) : Except String Value :=
  match rows.head? with
  | Option.none => Except.error "no items in in result"
  | some first =>
      match rows.tail.head? with
      | some _ => Except.error "more than one item in result"
      | Option.none => Except.ok first

/-! ## Constructors with construction-time checks (`core.py`, `functions.py`) -/

/-- `AggregateFunctionField.__init__`: stores the members, then
`assert all(arg._is_mapper() for arg in args)`.  A failed assert — or the
`AttributeError` of a non-`Field` argument, which `allMapper` also maps to
`false` — is a failed construction. -/
def AggregateFunctionField_init (fn : AggFn) (args : List Value) (nm : String) : Option Value :=
  if allMapper args then some (.fAgg fn args nm) else Option.none

/-- The invoker produced by `FunctionsRegistry.aggregate_function`:
`AggregateFunctionField(func, to_fields(fields), name)`. -/
def registry_aggregate_function (fn : AggFn) (nm : String) (fields : List Value) : Option Value :=
  AggregateFunctionField_init fn (to_fields fields) nm

/-- The invoker produced by `FunctionsRegistry.field_function`:
`FunctionField(func, to_fields(fields), name)`. -/
def registry_field_function (fn : Fn) (nm : String) (fields : List Value) : Value :=
  .fFunc fn (to_fields fields) nm

/-! ## Parser reduction actions (`parser.py`)

A reduction action's output is `p[0]`; PLY initialises it to `None`, so a
reduction that never assigns it produces the value `None`, modelled as
`Option.none`.  The claims exercise reductions whose `left` is a field
expression. -/

/-- `p_predfactor_2` (`predfactor : predfactor COMPARE arithexpr`): dispatch
on the token value string.  Every branch assigns `p[0]` — except `MATCHES`
(line 231), whose body is `p[0] == left.MATCHES(right)`: a comparison, not
an assignment, so the built node is discarded and the output stays unset.
The final arm is the fall-through for token values the lexer never
produces. -/
def p_predfactor_2 (left : Value) (op : String) (right : Value) : Option Value :=
  if op = "==" then some (dunderEq left right)
  else if op = "!=" then some (dunderNe left right)
  else if op = ">" then dunderGt left right
  else if op = ">=" then dunderGe left right
  else if op = "<" then dunderLt left right
  else if op = "<=" then dunderLe left right
  else if op = "IS" then some (field_op .is_ "IS" left right)
  else if op = "CONTAINS" then some (field_op .contains "CONTAINS" left right)
  else if op = "LIKE" then some (field_op .fnmatch "LIKE" left right)
  else if op = "MATCHES" then Option.none
  else Option.none

/-- `p_statement` (`statement : select distinct fexprplus where groupby
returning`): build `SELECT(fexprplus)` and apply each present clause in
order.  `where` is `None` both when the clause is absent and when its
reduction produced no value (`p[0] is not None` cannot tell the two apart);
`groupby` is wrapped into a list when the `fexprplus` produced a single
field (`p_groupby_1`). -/
def p_statement (distinct : Bool) (fexprplus : Value) (whereV : Option Value)
    (groupbyV : Option Value) (returning : Option RetType) : Option SelectQuery := do
  let s := SELECT [fexprplus]
  let s := if distinct then s.DISTINCT else s
  let s ← match whereV with
    | Option.none => some s
    | some w => s.WHERE w
  let s ← match groupbyV with
    | Option.none => some s
    | some g => s.GROUP_BY (match g with | .list gs => gs | _ => [g])
  pure (match returning with
    | Option.none => s
    | some rt => s.RETURNING rt)

/-! ## Claim theorems -/

/-- Claim C1: the function registered for the binary OR operator ignores its
left operand — its body `o or y` references the stray module-level
`IdentityField` instead of `x`, so for every pair of operand values it
returns that identity-field object (which is truthy) rather than `x or y`;
consequently an Operator node with symbol OR evaluates to the truthy
identity object on every record, regardless of its operands, instead of the
short-circuit left-OR-right a faithful implementation would compute. -/
theorem C1_or_ignores_left (x y F G r a b : Value)
    (hF : call F r = some a) (hG : call G r = some b) :
    or_ x y = oIdent ∧
    truthy (or_ x y) = true ∧
    call (Value.fOp .or_ [F, G] "OR") r = some oIdent ∧
    truthy oIdent = true ∧
    or_ (Value.bool false) (Value.bool false) ≠
      pyOrV (Value.bool false) (Value.bool false) := by
  refine ⟨rfl, rfl, ?_, rfl, by simp [or_, pyOrV, oIdent, truthy]⟩
  simp [call, omapCall, hF, hG, funcSem, or_, pyOrV, oIdent, truthy]

/-- Witness for C1 at concrete operands: two constant-false fields over the
record `None`. -/
theorem C1_or_ignores_left_witness :
    call (Value.fConst (Value.bool false)) Value.none = some (Value.bool false) ∧
    (or_ (Value.bool true) (Value.bool false) = oIdent ∧
     truthy (or_ (Value.bool true) (Value.bool false)) = true ∧
     call (Value.fOp .or_ [Value.fConst (Value.bool false), Value.fConst (Value.bool false)]
        "OR") Value.none = some oIdent ∧
     truthy oIdent = true ∧
     or_ (Value.bool false) (Value.bool false) ≠
       pyOrV (Value.bool false) (Value.bool false)) := by
  have hc : call (Value.fConst (Value.bool false)) Value.none = some (Value.bool false) := by
    simp [call]
  exact ⟨hc, C1_or_ignores_left (Value.bool true) (Value.bool false) _ _ Value.none _ _ hc hc⟩

/-- Claim C2: in the parser's reduction for `predfactor COMPARE arithexpr`,
the MATCHES branch compares (`==`) instead of assigning (`=`), so the built
MATCHES node is discarded and the reduction's output stays unset; parsing
`SELECT o.x WHERE o.s MATCHES 'foo.*'` therefore yields a query whose WHERE
clause is absent rather than a MATCHES Operator node (for contrast, the
neighbouring LIKE branch does assign its node). -/
theorem C2_matches_reduction_discarded :
    (∀ l r : Value, p_predfactor_2 l "MATCHES" r = Option.none) ∧
    (∀ l r : Value, p_predfactor_2 l "LIKE" r = some (field_op .fnmatch "LIKE" l r)) ∧
    p_statement false (Value.fAttr "x")
        (p_predfactor_2 (Value.fAttr "s") "MATCHES" (Value.fConst (Value.str "foo.*")))
        Option.none Option.none
      = some ⟨[Value.fAttr "x"], true, false, Option.none, Option.none, Option.none⟩ ∧
    (∀ q : SelectQuery,
      p_statement false (Value.fAttr "x")
          (p_predfactor_2 (Value.fAttr "s") "MATCHES" (Value.fConst (Value.str "foo.*")))
          Option.none Option.none = some q →
      q.where_ = Option.none) := by
  refine ⟨fun l r => by simp [p_predfactor_2], fun l r => by simp [p_predfactor_2], rfl, ?_⟩
  intro q h
  have : q = ⟨[Value.fAttr "x"], true, false, Option.none, Option.none, Option.none⟩ := by
    have h' : some (⟨[Value.fAttr "x"], true, false, Option.none, Option.none,
        Option.none⟩ : SelectQuery) = some q := by rw [← h]; rfl
    exact (Option.some.inj h').symm
  rw [this]

/-- Claim C5: the `SELECT` constructor's argument-shape table — no
arguments: a single Identity projection with flatten; one list/tuple
argument: that sequence (coerced) without flatten; one non-sequence
argument: a one-element projection with flatten; several arguments: those
(coerced) fields without flatten — and the flatten stage delivers each
one-element row as its sole element. -/
theorem C5_select_shapes :
    SELECT [] = ⟨[Value.fIdentity], true, false, Option.none, Option.none, Option.none⟩ ∧
    (∀ s : Value, isSeq s = true →
      SELECT [s] = ⟨to_fields (seqElems s), false, false, Option.none, Option.none,
        Option.none⟩) ∧
    (∀ v : Value, isSeq v = false →
      SELECT [v] = ⟨[to_field v], true, false, Option.none, Option.none, Option.none⟩) ∧
    (∀ v w : Value, ∀ rest : List Value,
      SELECT (v :: w :: rest) = ⟨to_fields (v :: w :: rest), false, false, Option.none,
        Option.none, Option.none⟩) ∧
    (∀ vs : List Value, _flatten true (vs.map (fun v => Value.tuple [v])) = some vs) := by
  refine ⟨rfl, ?_, ?_, fun v w rest => rfl, ?_⟩
  · intro s hs; simp [SELECT, hs]
  · intro v hv; simp [SELECT, hv]
  · intro vs
    have h : ∀ ws : List Value, oflatten (ws.map (fun v => Value.tuple [v])) = some ws := by
      intro ws
      induction ws with
      | nil => rfl
      | cons v ws ih =>
          simp only [List.map_cons, oflatten, ih]
          simp [pyGetItem, indexKey, normIndex]
    simp [_flatten, h vs]

/-- Witness for C5 at concrete arguments: a tuple argument, a plain field
argument, and a two-row flatten. -/
theorem C5_select_shapes_witness :
    isSeq (Value.tuple [Value.fAttr "x"]) = true ∧
    isSeq (Value.fAttr "x") = false ∧
    (SELECT [Value.tuple [Value.fAttr "x"]] =
      ⟨to_fields (seqElems (Value.tuple [Value.fAttr "x"])), false, false, Option.none,
        Option.none, Option.none⟩ ∧
     SELECT [Value.fAttr "x"] =
      ⟨[to_field (Value.fAttr "x")], true, false, Option.none, Option.none, Option.none⟩ ∧
     _flatten true [Value.tuple [Value.int 1], Value.tuple [Value.int 2]] =
      some [Value.int 1, Value.int 2]) := by
  refine ⟨rfl, rfl, C5_select_shapes.2.1 _ rfl, C5_select_shapes.2.2.1 _ rfl, ?_⟩
  have h := C5_select_shapes.2.2.2.2 [Value.int 1, Value.int 2]
  simpa using h

/-- Claim C7: `one()` on a materialised result returns the single row when
there is exactly one, fails with the *EmptyResult* error (`ValueError: no
items in in result`) on zero rows, and with the *AmbiguousResult* error
(`ValueError: more than one item in result`) on two or more rows. -/
theorem C7_one_cases (rows : List Value) :
    (rows = [] → SelectResult_one rows = Except.error "no items in in result") ∧
    (∀ x, rows = [x] → SelectResult_one rows = Except.ok x) ∧
    (2 ≤ rows.length →
      SelectResult_one rows = Except.error "more than one item in result") := by
  refine ⟨?_, ?_, ?_⟩
  · intro h; subst h; rfl
  · intro x h; subst h; rfl
  · intro h
    match rows, h with
    | x :: y :: rest, _ => rfl

/-- Witness for C7 on concrete results of zero, one and two rows. -/
theorem C7_one_cases_witness :
    SelectResult_one [] = Except.error "no items in in result" ∧
    SelectResult_one [Value.int 7] = Except.ok (Value.int 7) ∧
    SelectResult_one [Value.int 1, Value.int 2] =
      Except.error "more than one item in result" :=
  ⟨(C7_one_cases []).1 rfl,
   (C7_one_cases [Value.int 7]).2.1 _ rfl,
   (C7_one_cases [Value.int 1, Value.int 2]).2.2 (by simp)⟩

/-- `allMapper` is the conjunction of `_is_mapper` over the list. -/
theorem allMapper_iff (l : List Value) :
    allMapper l = true ↔ ∀ a ∈ l, _is_mapper a = true := by
  induction l with
  | nil => simp [allMapper]
  | cons x xs ih => simp [allMapper, ih]

/-- Claim C9: the Python `==` on field expressions does not test equality —
with a field left operand it constructs an Operator node with symbol `==`
over the field and the coerced right operand, whose evaluation on a record
applies the value-level `==` to the two evaluated operands; it never
produces a boolean, so structural equality is available only through
`_equals`. -/
theorem C9_eq_builds_operator (F v r a b : Value) (hF : isField F = true)
    (ha : call F r = some a) (hb : call (to_field v) r = some b) :
    dunderEq F v = Value.fOp .eq [F, to_field v] "==" ∧
    call (Value.fOp .eq [F, to_field v] "==") r = some (dunderEq a b) ∧
    (isField v = false → to_field v = Value.fConst v) ∧
    (∀ c : Bool, dunderEq F v ≠ Value.bool c) := by
  refine ⟨by simp [dunderEq, hF, field_op], ?_, ?_, ?_⟩
  · simp [call, omapCall, ha, hb, funcSem]
  · intro hv; simp [to_field, hv]
  · intro c
    simp [dunderEq, hF, field_op]

/-- Witness for C9: `o.x == 3` evaluated on a one-attribute record. -/
theorem C9_eq_builds_operator_witness :
    isField (Value.fAttr "x") = true ∧
    call (Value.fAttr "x") (Value.obj [("x", Value.int 1)]) = some (Value.int 1) ∧
    call (to_field (Value.int 3)) (Value.obj [("x", Value.int 1)]) = some (Value.int 3) ∧
    (dunderEq (Value.fAttr "x") (Value.int 3) =
      Value.fOp .eq [Value.fAttr "x", to_field (Value.int 3)] "==" ∧
     call (Value.fOp .eq [Value.fAttr "x", to_field (Value.int 3)] "==")
        (Value.obj [("x", Value.int 1)]) =
      some (dunderEq (Value.int 1) (Value.int 3)) ∧
     (isField (Value.int 3) = false → to_field (Value.int 3) = Value.fConst (Value.int 3)) ∧
     (∀ c : Bool, dunderEq (Value.fAttr "x") (Value.int 3) ≠ Value.bool c)) := by
  have ha : call (Value.fAttr "x") (Value.obj [("x", Value.int 1)]) = some (Value.int 1) := by
    simp [call, getattrV]
  have hb : call (to_field (Value.int 3)) (Value.obj [("x", Value.int 1)]) =
      some (Value.int 3) := by
    simp [call, to_field, isField]
  exact ⟨rfl, ha, hb, C9_eq_builds_operator _ _ _ _ _ rfl ha hb⟩

/-- Claim C10: constructing an `AggregateFunctionField` whose argument list
contains any subtree that is not scalar fails at construction time (the
`__init__` assertion), so every constructed aggregate node has all-scalar
arguments, classifies as aggregate and not scalar, and directly nesting one
aggregate application inside another — `sum(sum(o.x))` through the registry
invokers — is rejected before any query runs. -/
theorem C10_aggregate_args_scalar (fn : AggFn) (args : List Value) (nm : String) (F : Value)
    (h : AggregateFunctionField_init fn args nm = some F) :
    allMapper args = true ∧ F = Value.fAgg fn args nm ∧
    _is_aggregator F = true ∧ _is_mapper F = false ∧
    (∀ fn' : AggFn, ∀ nm' : String, ∀ args' : List Value,
      (∃ a ∈ args', _is_mapper a = false) →
      AggregateFunctionField_init fn' args' nm' = Option.none) ∧
    registry_aggregate_function .sum "sum" [Value.fAttr "x"] =
      some (Value.fAgg .sum [Value.fAttr "x"] "sum") ∧
    registry_aggregate_function .sum "sum" [Value.fAgg .sum [Value.fAttr "x"] "sum"] =
      Option.none := by
  have hmap : allMapper args = true ∧ F = Value.fAgg fn args nm := by
    by_cases hm : allMapper args = true
    · refine ⟨hm, ?_⟩
      rw [AggregateFunctionField_init, if_pos hm] at h
      exact (Option.some.inj h).symm
    · rw [AggregateFunctionField_init, if_neg hm] at h
      exact absurd h (by simp)
  refine ⟨hmap.1, hmap.2, by rw [hmap.2]; rfl, by rw [hmap.2]; rfl, ?_, ?_, ?_⟩
  · intro fn' nm' args' ⟨a, hmem, hnot⟩
    have : allMapper args' ≠ true := by
      intro hall
      exact absurd ((allMapper_iff args').mp hall a hmem) (by simp [hnot])
    simp [AggregateFunctionField_init, this]
  · rfl
  · rfl

/-- Witness for C10: the registry-built `sum(o.x)`. -/
theorem C10_aggregate_args_scalar_witness :
    AggregateFunctionField_init .sum [Value.fAttr "x"] "sum" =
      some (Value.fAgg .sum [Value.fAttr "x"] "sum") ∧
    allMapper [Value.fAttr "x"] = true ∧
    _is_aggregator (Value.fAgg .sum [Value.fAttr "x"] "sum") = true ∧
    _is_mapper (Value.fAgg .sum [Value.fAttr "x"] "sum") = false :=
  ⟨rfl,
   (C10_aggregate_args_scalar .sum [Value.fAttr "x"] "sum" _ rfl).1,
   (C10_aggregate_args_scalar .sum [Value.fAttr "x"] "sum" _ rfl).2.2.1,
   (C10_aggregate_args_scalar .sum [Value.fAttr "x"] "sum" _ rfl).2.2.2.1⟩

/-- A tail character of the claim's identifier pattern. -/
def identTailChar (c : Char) : Bool :=
  identStartChar c || (48 ≤ c.toNat && c.toNat ≤ 57)

/-- Stated from the claim's words (for comparison with the code): the name
matches `[A-Za-z_][A-Za-z0-9_]*` *in full*. -/
def fullIdentMatch (s : String) : Bool :=
  match s.data with
  | [] => false
  | c :: cs => identStartChar c && cs.all identTailChar

/-- Counterexample to claim C8: the name `"a-b"` is not an identifier in
full (it contains a hyphen after a valid leading character), yet
`AliasField` construction succeeds, because `re.match` only requires a
matching prefix. -/
theorem C8_alias_name_counterexample :
    AliasField_init (Value.fAttr "x") "a-b" =
      some (Value.fAlias (Value.fAttr "x") "a-b") ∧
    fullIdentMatch "a-b" = false := by
  constructor
  · have h : aliasNameOk "a-b" = true := by decide
    simp [AliasField_init, h, to_field, isField]
  · decide

/-- Claim C8 as amended: `Alias` construction succeeds exactly when the name
is nonempty and its first character matches `[A-Za-z_]` (the `re.match`
prefix test); a successful construction stores the coerced field under that
name.  Names that merely start with a valid identifier character — like
`"a-b"` — are accepted, so alias names are only guaranteed to begin with an
identifier character, not to be identifiers in full. -/
theorem C8_alias_name_amended (F : Value) (n : String) :
    ((AliasField_init F n).isSome ↔
      ∃ c cs, n.data = c :: cs ∧ identStartChar c = true) ∧
    (aliasNameOk n = true → AliasField_init F n = some (Value.fAlias (to_field F) n)) := by
  constructor
  · constructor
    · intro h
      by_cases ha : aliasNameOk n = true
      · cases hd : n.data with
        | nil => rw [aliasNameOk, hd] at ha; exact absurd ha (by simp)
        | cons c cs =>
            rw [aliasNameOk, hd] at ha
            exact ⟨c, cs, rfl, ha⟩
      · rw [AliasField_init, if_neg ha] at h
        exact absurd h (by simp)
    · intro ⟨c, cs, hd, hc⟩
      have ha : aliasNameOk n = true := by rw [aliasNameOk, hd]; exact hc
      simp [AliasField_init, ha]
  · intro ha
    simp [AliasField_init, ha]

/-- Witness for the amended C8: a plain valid name constructs, the empty
name does not. -/
theorem C8_alias_name_amended_witness :
    aliasNameOk "total" = true ∧
    AliasField_init (Value.fAttr "x") "total" =
      some (Value.fAlias (to_field (Value.fAttr "x")) "total") ∧
    ((AliasField_init (Value.fAttr "x") "").isSome ↔
      ∃ c cs, ("" : String).data = c :: cs ∧ identStartChar c = true) :=
  ⟨by decide,
   (C8_alias_name_amended (Value.fAttr "x") "total").2 (by decide),
   (C8_alias_name_amended (Value.fAttr "x") "").1⟩

/-- `==` is symmetric for types with lawful boolean equality. -/
theorem beqComm {A : Type} [BEq A] [LawfulBEq A] (a b : A) : (a == b) = (b == a) := by
  by_cases h : a = b
  · subst h; rfl
  · rw [beq_eq_false_iff_ne.mpr h, beq_eq_false_iff_ne.mpr (Ne.symm h)]

mutual

/-- Python `==` (in a truth context) is symmetric on the modelled domain. -/
theorem pyEqB_symm (a b : Value) : pyEqB a b = pyEqB b a := by
  cases a <;> cases b <;> try rfl
  case bool.bool x y => exact beqComm x y
  case bool.int x n => exact beqComm _ _
  case int.bool n x => exact beqComm _ _
  case int.int m n => exact beqComm m n
  case str.str s t => exact beqComm s t
  case list.list xs ys => exact pyEqList_symm xs ys
  case tuple.tuple xs ys => exact pyEqList_symm xs ys
  case obj.obj xs ys => exact pyEqAttrs_symm xs ys
termination_by (sizeOf a, sizeOf b)

/-- Elementwise `==` of sequences is symmetric. -/
theorem pyEqList_symm (xs ys : List Value) : pyEqList xs ys = pyEqList ys xs := by
  cases xs <;> cases ys <;> try rfl
  case cons.cons x xs y ys =>
    simp only [pyEqList]
    rw [pyEqB_symm x y, pyEqList_symm xs ys]
termination_by (sizeOf xs, sizeOf ys)

/-- Fieldwise `==` of records is symmetric. -/
theorem pyEqAttrs_symm (xs ys : List (String × Value)) :
    pyEqAttrs xs ys = pyEqAttrs ys xs := by
  cases xs <;> cases ys <;> try rfl
  case cons.cons p ps q qs =>
    cases p with
    | mk k v =>
        cases q with
        | mk k2 v2 =>
            simp only [pyEqAttrs]
            rw [pyEqB_symm v v2, pyEqAttrs_symm ps qs, beqComm k k2]
termination_by (sizeOf xs, sizeOf ys)

end

mutual

/-- Structural equality `_equals` is symmetric: both orders unwrap aliases
and compare the same members. -/
theorem _equals_symm (a b : Value) : _equals a b = _equals b a := by
  cases a <;> cases b <;> simp only [_equals] <;> try rfl
  case fAttr.fAttr s t => exact beqComm s t
  case fKey.fKey k k2 => exact pyEqB_symm k k2
  case fConst.fConst v w => exact pyEqB_symm v w
  case fList.fList fs gs =>
    rw [_equalsList_symm fs gs, decide_eq_decide.mpr (Iff.intro Eq.symm Eq.symm)]
  case fAlias.fAlias f n g m =>
    rw [_equals_symm f (Value.fAlias g m), _equals_symm g (Value.fAlias f n)]
    simp only [_equals]
    exact _equals_symm g f
  case fFunc.fFunc fn args nm fn2 args2 nm2 =>
    rw [beqComm fn fn2, _equalsList_symm args args2,
      decide_eq_decide.mpr (Iff.intro Eq.symm Eq.symm)]
  case fOp.fOp fn args nm fn2 args2 nm2 =>
    rw [beqComm fn fn2, _equalsList_symm args args2,
      decide_eq_decide.mpr (Iff.intro Eq.symm Eq.symm)]
  case fAgg.fAgg fn args nm fn2 args2 nm2 =>
    rw [beqComm fn fn2, _equalsList_symm args args2,
      decide_eq_decide.mpr (Iff.intro Eq.symm Eq.symm)]
termination_by sizeOf a + sizeOf b

/-- Pairwise `_equals` of lists is symmetric. -/
theorem _equalsList_symm (xs ys : List Value) : _equalsList xs ys = _equalsList ys xs := by
  cases xs <;> cases ys <;> simp only [_equalsList] <;> try rfl
  case cons.cons x xs y ys => rw [_equals_symm x y, _equalsList_symm xs ys]
termination_by sizeOf xs + sizeOf ys

end

/-- Claim C6: `Alias` is transparent for classification and structural
equality — for a field `F` and a valid identifier `n`, `Alias(F, n)` has the
same `_is_mapper` / `_is_aggregator` classification as `F`, and for every
field `G` it is `_equals` to `G` exactly when `F` is, on either side of the
comparison (each variant's `_equals` unwraps an alias found on the other
side). -/
theorem C6_alias_transparent (F : Value) (n : String)
    (hF : isField F = true) (hn : aliasNameOk n = true) :
    _is_mapper (Value.fAlias F n) = _is_mapper F ∧
    _is_aggregator (Value.fAlias F n) = _is_aggregator F ∧
    AliasField_init F n = some (Value.fAlias F n) ∧
    (∀ G, _equals (Value.fAlias F n) G = _equals F G) ∧
    (∀ G, _equals G (Value.fAlias F n) = _equals G F) := by
  refine ⟨rfl, rfl, ?_, ?_, ?_⟩
  · simp [AliasField_init, hn, to_field, hF]
  · intro G; simp only [_equals]
  · intro G
    rw [_equals_symm G (Value.fAlias F n), _equals_symm G F]
    simp only [_equals]

/-- Witness for C6: `o.x AS y` against another attribute field. -/
theorem C6_alias_transparent_witness :
    isField (Value.fAttr "x") = true ∧ aliasNameOk "y" = true ∧
    (_is_mapper (Value.fAlias (Value.fAttr "x") "y") = _is_mapper (Value.fAttr "x") ∧
     _is_aggregator (Value.fAlias (Value.fAttr "x") "y") =
       _is_aggregator (Value.fAttr "x") ∧
     AliasField_init (Value.fAttr "x") "y" =
       some (Value.fAlias (Value.fAttr "x") "y") ∧
     (∀ G, _equals (Value.fAlias (Value.fAttr "x") "y") G = _equals (Value.fAttr "x") G) ∧
     (∀ G, _equals G (Value.fAlias (Value.fAttr "x") "y") = _equals G (Value.fAttr "x"))) :=
  ⟨rfl, by decide, C6_alias_transparent (Value.fAttr "x") "y" rfl (by decide)⟩

/-! ## The lexer (`lexer.py`)

PLY builds one master matcher: at each position the ignore characters
(space, tab) are skipped, then the function rules are tried in definition
order — `t_ID`, `t_STR`, `t_FLOAT`, `t_INT`, `t_newline` — then the string
rules by decreasing regex length — `t_COMPARE`, `t_POW` — then the
single-character literals; an unmatched character raises the lexer's
`SyntaxError` (the spec's *LexError*).  Each rule's regular expression below
is deterministic (no alternative ever revisits a choice that `re`'s
backtracking could decide differently), so each is embedded as a direct
functional matcher; a comment quotes the source regex. -/

/-- A lexer token: its PLY type plus value.  `floatTok` keeps the raw
matched text, float conversion being outside the modelled value domain. -/
inductive Tok where
  | kw (s : String)
  | id (s : String)
  | compare (s : String)
  | strTok (s : String)
  | intTok (n : Int)
  | floatTok (raw : String)
  | powTok
  | lit (c : Char)
deriving DecidableEq, Repr

/-- A decimal digit. -/
def digitCh (c : Char) : Bool := 48 ≤ c.toNat && c.toNat ≤ 57

/-- Greedy run of decimal digits. -/
def spanDigits (cs : List Char) : List Char × List Char := cs.span digitCh

/-- `t_ID`, regex `[a-zA-Z_][a-zA-Z_0-9]*`. -/
def matchID (cs : List Char) : Option (String × List Char) :=
  match cs with
  | c :: rest =>
      if identStartChar c then
        let p := rest.span identTailChar
        some (String.mk (c :: p.1), p.2)
      else Option.none
  | [] => Option.none

/-- The loop of `t_STR` after the opening quote, regex body
`(\\\\|\\'|[^'\\])*'`: a backslash must be followed by a backslash or a
quote (both kept verbatim — `t_STR` strips only the surrounding quotes), any
other character except the quote stands for itself, and the first bare
quote closes the literal. -/
def matchSTRAux : List Char → List Char → Option (List Char × List Char)
  | [], _ => Option.none
  | c :: rest, acc =>
      if c == qch then some (acc.reverse, rest)
      else if c == bsCh then
        match rest with
        | d :: rest2 =>
            if d == bsCh || d == qch then matchSTRAux rest2 (d :: c :: acc)
            else Option.none
        | [] => Option.none
      else matchSTRAux rest (c :: acc)

/-- `t_STR`, regex `'(\\\\|\\'|[^'\\])*'`; the value strips the quotes. -/
def matchSTR (cs : List Char) : Option (String × List Char) :=
  match cs with
  | c :: rest =>
      if c == qch then
        (matchSTRAux rest []).map (fun p => (String.mk p.1, p.2))
      else Option.none
  | [] => Option.none

/-- The dot character. -/
def dotCh : Char := Char.ofNat 46

/-- `pointfloat`, regex `(\d+)?\.\d+|\d+\.` (first alternative preferred). -/
def matchPointFloat (cs : List Char) : Option (List Char × List Char) :=
  let p := spanDigits cs
  match p.2 with
  | c :: r1 =>
      if c == dotCh then
        let q := spanDigits r1
        if q.1 ≠ [] then some (p.1 ++ c :: q.1, q.2)
        else if p.1 ≠ [] then some (p.1 ++ [c], r1)
        else Option.none
      else Option.none
  | [] => Option.none

/-- A sign character, consumed by the leading `[+-]?`. -/
def optSign (cs : List Char) : List Char × List Char :=
  match cs with
  | c :: rest =>
      if c == Char.ofNat 43 || c == Char.ofNat 45 then ([c], rest) else ([], cs)
  | [] => ([], [])

/-- `exponent`, regex `[eE][+-]?\d+`. -/
def matchExponent (cs : List Char) : Option (List Char × List Char) :=
  match cs with
  | c :: r1 =>
      if c == Char.ofNat 101 || c == Char.ofNat 69 then
        let s := optSign r1
        let d := spanDigits s.2
        if d.1 ≠ [] then some (c :: s.1 ++ d.1, d.2) else Option.none
      else Option.none
  | [] => Option.none

/-- `exponentfloat`, regex `(\d+|pointfloat)[eE][+-]?\d+` (plain digits
preferred; a failing exponent falls back to the `pointfloat`
alternative). -/
def matchExponentFloat (cs : List Char) : Option (List Char × List Char) :=
  let tryPoint : Option (List Char × List Char) := do
    let p ← matchPointFloat cs
    let e ← matchExponent p.2
    pure (p.1 ++ e.1, e.2)
  let d := spanDigits cs
  if d.1 ≠ [] then
    match matchExponent d.2 with
    | some e => some (d.1 ++ e.1, e.2)
    | Option.none => tryPoint
  else tryPoint

/-- `t_FLOAT`, regex `[+-]?(exponentfloat|pointfloat)`. -/
def matchFLOAT (cs : List Char) : Option (List Char × List Char) :=
  let s := optSign cs
  match matchExponentFloat s.2 with
  | some m => some (s.1 ++ m.1, m.2)
  | Option.none => (matchPointFloat s.2).map (fun m => (s.1 ++ m.1, m.2))

/-- A binary digit. -/
def binDigitCh (c : Char) : Bool := c == Char.ofNat 48 || c == Char.ofNat 49

/-- An octal digit. -/
def octDigitCh (c : Char) : Bool := 48 ≤ c.toNat && c.toNat ≤ 55

/-- A hexadecimal digit. -/
def hexDigitCh (c : Char) : Bool :=
  digitCh c || (97 ≤ c.toNat && c.toNat ≤ 102) || (65 ≤ c.toNat && c.toNat ≤ 70)

/-- The body of `t_INT` after the optional sign, regex
`[1-9][0-9]*|0[bB][01]+|0[oO][0-7]+|0[xX][0-9a-fA-F]+|0` in the source's
alternative order. -/
def matchINTBody (cs : List Char) : Option (List Char × List Char) :=
  match cs with
  | c :: rest =>
      if 49 ≤ c.toNat && c.toNat ≤ 57 then
        let d := spanDigits rest
        some (c :: d.1, d.2)
      else if c == Char.ofNat 48 then
        match rest with
        | b :: r2 =>
            if b == Char.ofNat 98 || b == Char.ofNat 66 then
              let d := r2.span binDigitCh
              if d.1 ≠ [] then some (c :: b :: d.1, d.2) else some ([c], rest)
            else if b == Char.ofNat 111 || b == Char.ofNat 79 then
              let d := r2.span octDigitCh
              if d.1 ≠ [] then some (c :: b :: d.1, d.2) else some ([c], rest)
            else if b == Char.ofNat 120 || b == Char.ofNat 88 then
              let d := r2.span hexDigitCh
              if d.1 ≠ [] then some (c :: b :: d.1, d.2) else some ([c], rest)
            else some ([c], rest)
        | [] => some ([c], [])
      else Option.none
  | [] => Option.none

/-- The numeric value of one digit character (decimal or hex, either
case). -/
def digitVal (c : Char) : Nat :=
  if 48 ≤ c.toNat && c.toNat ≤ 57 then c.toNat - 48
  else if 97 ≤ c.toNat && c.toNat ≤ 102 then c.toNat - 87
  else if 65 ≤ c.toNat && c.toNat ≤ 70 then c.toNat - 55
  else 0

/-- Digits folded in a base (the `int(n, base)` of `t_INT`). -/
def parseDigitsBase (base : Nat) (ds : List Char) : Nat :=
  ds.foldl (fun acc c => acc * base + digitVal c) 0

/-- The value conversion of `t_INT`: strip the sign, detect a `0b`/`0o`/`0x`
prefix (case-insensitively), and parse accordingly. -/
def intTokValue (raw : List Char) : Int :=
  let sgn : Int × List Char :=
    match raw with
    | c :: rest =>
        if c == Char.ofNat 45 then (-1, rest)
        else if c == Char.ofNat 43 then (1, rest) else (1, raw)
    | [] => (1, raw)
  match sgn.2 with
  | c0 :: c1 :: ds =>
      if c0 == Char.ofNat 48 && (c1 == Char.ofNat 98 || c1 == Char.ofNat 66) then
        sgn.1 * parseDigitsBase 2 ds
      else if c0 == Char.ofNat 48 && (c1 == Char.ofNat 111 || c1 == Char.ofNat 79) then
        sgn.1 * parseDigitsBase 8 ds
      else if c0 == Char.ofNat 48 && (c1 == Char.ofNat 120 || c1 == Char.ofNat 88) then
        sgn.1 * parseDigitsBase 16 ds
      else sgn.1 * parseDigitsBase 10 sgn.2
  | _ => sgn.1 * parseDigitsBase 10 sgn.2

/-- `t_INT`, regex `[+-]?([1-9][0-9]*|0[bB][01]+|0[oO][0-7]+|0[xX][0-9a-fA-F]+|0)`. -/
def matchINT (cs : List Char) : Option (Int × List Char) :=
  let s := optSign cs
  (matchINTBody s.2).map (fun m => (intTokValue (s.1 ++ m.1), m.2))

/-- `t_COMPARE`, regex `>=?|<=?|==|!=`. -/
def matchCOMPARE (cs : List Char) : Option (String × List Char) :=
  match cs with
  | c :: d :: rest =>
      if c == Char.ofNat 62 then
        if d == Char.ofNat 61 then some (">=", rest) else some (">", d :: rest)
      else if c == Char.ofNat 60 then
        if d == Char.ofNat 61 then some ("<=", rest) else some ("<", d :: rest)
      else if c == Char.ofNat 61 && d == Char.ofNat 61 then some ("==", rest)
      else if c == Char.ofNat 33 && d == Char.ofNat 61 then some ("!=", rest)
      else Option.none
  | [c] =>
      if c == Char.ofNat 62 then some (">", [])
      else if c == Char.ofNat 60 then some ("<", [])
      else Option.none
  | [] => Option.none

/-- `t_POW`, regex `\*\*`. -/
def matchPOW (cs : List Char) : Option (List Char) :=
  match cs with
  | c :: d :: rest =>
      if c == Char.ofNat 42 && d == Char.ofNat 42 then some rest else Option.none
  | _ => Option.none

/-- The keyword set of `lexer.py`. -/
def lexKeywords : List String :=
  ["SELECT", "DISTINCT", "WHERE", "GROUP", "BY", "AS", "RETURNING",
   "AND", "OR", "NOT", "TRUE", "FALSE", "NONE", "O", "IN"]

/-- The `compare_ids` set of `lexer.py`. -/
def lexCompareIds : List String := ["IS", "IN", "CONTAINS", "MATCHES", "LIKE"]

/-- The body of `t_ID`: an identifier whose uppercase form is a keyword
becomes that keyword token (value uppercased); one in `compare_ids` becomes
a `COMPARE` token; anything else stays `ID`. -/
def idToTok (s : String) : Tok :=
  let up := asciiUpper s
  if lexKeywords.contains up then .kw up
  else if lexCompareIds.contains up then .compare up
  else .id s

/-- The single-character `literals` of `lexer.py`: `( ) [ ] , . + - / * %`. -/
def lexLiterals : List Char :=
  [Char.ofNat 40, Char.ofNat 41, Char.ofNat 91, Char.ofNat 93, Char.ofNat 44,
   Char.ofNat 46, Char.ofNat 43, Char.ofNat 45, Char.ofNat 47, Char.ofNat 42,
   Char.ofNat 37]

/-- One master-matcher step at a non-ignored position: the rules in PLY's
order; `some (Option.none, rest)` is the token-less newline rule,
`Option.none` is a `LexError`. -/
def lexStep (cs : List Char) : Option (Option Tok × List Char) :=
  match matchID cs with
  | some p => some (some (idToTok p.1), p.2)
  | Option.none =>
  match matchSTR cs with
  | some p => some (some (.strTok p.1), p.2)
  | Option.none =>
  match matchFLOAT cs with
  | some p => some (some (.floatTok (String.mk p.1)), p.2)
  | Option.none =>
  match matchINT cs with
  | some p => some (some (.intTok p.1), p.2)
  | Option.none =>
  match cs with
  | c :: rest =>
      if c == nlCh then some (Option.none, rest.dropWhile (fun d => d == nlCh))
      else
        match matchCOMPARE cs with
        | some p => some (some (.compare p.1), p.2)
        | Option.none =>
        match matchPOW cs with
        | some r => some (some .powTok, r)
        | Option.none =>
            if lexLiterals.contains c then some (some (.lit c), rest) else Option.none
  | [] => Option.none

/-- The space character. -/
def spCh : Char := Char.ofNat 32

/-- The tab character. -/
def tabCh : Char := Char.ofNat 9

/-- The tokenisation loop; the fuel argument only bounds the recursion (each
step consumes at least one character, so `lexAll` supplies enough). -/
def lexAllAux : Nat → List Char → Option (List Tok)
  | _, [] => some []
  | 0, _ :: _ => Option.none
  | fuel + 1, c :: cs =>
      if c == spCh || c == tabCh then lexAllAux fuel cs
      else
        match lexStep (c :: cs) with
        | some (some tok, rest) => (lexAllAux fuel rest).map (fun ts => tok :: ts)
        | some (Option.none, rest) => lexAllAux fuel rest
        | Option.none => Option.none

/-- Tokenise a whole source text; `Option.none` is a `LexError`. -/
def lexAll (s : String) : Option (List Tok) := lexAllAux (s.data.length + 1) s.data

/-! ## Query rendering (`SelectQuery.__str__`) -/

/-- The sequence branch of `core.fields_to_str`: `"()"` when empty, the
single field's text plus a trailing comma when a one-element sequence, a
comma-joined list otherwise.  (Applied to a single `Field` instead of a
sequence, `fields_to_str` is `str` of it — the `render` function.) -/
def fields_to_strSeq (fields : List Value) : String :=
  match fields with
  | [] => "()"
  | [f] => render f ++ ","
  | fs => String.intercalate ", " (renderList fs)

/-- `core.indent`. -/
def indentText (text tab : String) : String :=
  String.intercalate "\n" ((text.splitOn "\n").map (fun line => tab ++ line))

/-- `core.block`: single-line text stays; multi-line text is wrapped in
parentheses and indented.  (`str.splitlines` agrees with splitting on a
newline for the renderer's outputs, which never end in a newline.) -/
def blockText (text : String) : String :=
  if (text.splitOn "\n").length == 1 then text
  else "(\n" ++ indentText text "    " ++ "\n)"

/-- `SelectQuery.__str__`: the `SELECT`/`SELECT DISTINCT` line over
`fields[0]` (when flattening) or the field tuple, then the optional
`WHERE`, `GROUP BY` and `RETURNING` lines.  `fields[0]` of an empty
projection with `flatten` raises, hence the `Option`. -/
def SelectQuery.str (q : SelectQuery) : Option String := do
  let select := if q.distinct then "SELECT DISTINCT" else "SELECT"
  let fstr ← if q.flatten then (q.fields.head?).map render else some (fields_to_strSeq q.fields)
  let l1 := [select ++ " " ++ fstr]
  let l2 := match q.where_ with
    | Option.none => []
    | some w => ["WHERE " ++ blockText (render w)]
  let l3 := match q.group_by with
    | Option.none => []
    | some g => ["GROUP BY " ++ fields_to_strSeq g]
  let l4 := match q.return_type with
    | Option.none => []
    | some .dict => ["RETURNING dict"]
  pure (String.intercalate "\n" (l1 ++ l2 ++ l3 ++ l4))

/-- The string constant of the round-trip failing input: the two characters
`a`, `b` separated by a literal newline. -/
def c4Value : String := String.mk [Char.ofNat 97, nlCh, Char.ofNat 98]

/-- The failing textual query: `SELECT 'a<newline>b'` — accepted by the
lexer, since the STR rule's character class `[^'\\]` admits a newline. -/
def c4Source : String :=
  "SELECT " ++ String.mk [qch, Char.ofNat 97, nlCh, Char.ofNat 98, qch]

/-- Claim C4 (code bug demonstration): the round-trip property fails on the
program.  The textual query `SELECT 'a<newline>b'` lexes (and parses, via
`p_field_1` and `p_statement`, to `SELECT(ConstantField("a\nb"))`), but
rendering that query back to text produces `SELECT 'a\nb'` with a
backslash-n escape — `repr` escapes the newline — and the lexer rejects that
rendered text (its STR rule accepts a backslash only before a backslash or a
quote), so re-parsing raises *LexError* instead of yielding an equal
query. -/
theorem C4_roundtrip_fails_on_string_repr :
    lexAll c4Source = some [Tok.kw "SELECT", Tok.strTok c4Value] ∧
    p_statement false (Value.fConst (Value.str c4Value))
        Option.none Option.none Option.none
      = some (SELECT [Value.fConst (Value.str c4Value)]) ∧
    (SELECT [Value.fConst (Value.str c4Value)]).str =
      some ("SELECT " ++ pyReprStr c4Value) ∧
    pyReprStr c4Value =
      String.mk [qch, Char.ofNat 97, bsCh, Char.ofNat 110, Char.ofNat 98, qch] ∧
    lexAll ("SELECT " ++ pyReprStr c4Value) = Option.none := by
  refine ⟨by decide, rfl, rfl, by decide, by decide⟩

/-! ## The group-by pipeline (claim C3)

The lemmas below characterise the stable sort and the consecutive grouping
on a list of `(key, record)` pairs.  All order-theoretic facts about the
keys are taken as hypotheses local to the actual key list — `KeysOK` states
that, on these keys, Python's `<` (in a truth context) behaves as the strict
part of a total preorder whose equivalence is Python's `==`; this is how
CPython's comparisons behave on the homogeneous comparable values that a
sortable `GROUP BY` produces, and each instance is decidable, so a witness
can check it on concrete keys. -/

/-- Local order hypotheses on a key list (see the section comment). -/
structure KeysOK (K : List Value) : Prop where
  lt_comp : ∀ a ∈ K, ∀ b ∈ K, (pyLt a b).isSome
  lt_asym : ∀ a ∈ K, ∀ b ∈ K, keyLtB a b = true → keyLtB b a = false
  eq_coh : ∀ a ∈ K, ∀ b ∈ K, pyEqB a b = (!keyLtB a b && !keyLtB b a)
  lt_trans : ∀ a ∈ K, ∀ b ∈ K, ∀ c ∈ K,
    keyLtB a b = true → keyLtB b c = true → keyLtB a c = true
  eq_subst : ∀ a ∈ K, ∀ b ∈ K, pyEqB a b = true → ∀ c ∈ K,
    keyLtB a c = keyLtB b c ∧ keyLtB c a = keyLtB c b

/-- `<` is irreflexive on the keys. -/
theorem KeysOK.lt_irrefl {K : List Value} (h : KeysOK K) {a : Value} (ha : a ∈ K) :
    keyLtB a a = false := by
  by_cases hl : keyLtB a a = true
  · exact absurd hl (by simp [h.lt_asym a ha a ha hl])
  · simpa using hl

/-- `==` is reflexive on the keys. -/
theorem KeysOK.eq_refl {K : List Value} (h : KeysOK K) {a : Value} (ha : a ∈ K) :
    pyEqB a a = true := by
  rw [h.eq_coh a ha a ha, h.lt_irrefl ha]
  rfl

/-- Unequal keys compare strictly in one direction. -/
theorem KeysOK.eq_or_lt {K : List Value} (h : KeysOK K) {a b : Value}
    (ha : a ∈ K) (hb : b ∈ K) (hne : pyEqB a b = false) :
    keyLtB a b = true ∨ keyLtB b a = true := by
  have hc := h.eq_coh a ha b hb
  rw [hne] at hc
  by_cases h1 : keyLtB a b = true
  · exact Or.inl h1
  · by_cases h2 : keyLtB b a = true
    · exact Or.inr h2
    · rw [Bool.not_eq_true] at h1 h2
      rw [h1, h2] at hc
      exact absurd hc.symm (by simp)

/-- The non-strict order `¬(b < a)` is transitive on the keys. -/
theorem KeysOK.le_trans {K : List Value} (h : KeysOK K) {a b c : Value}
    (ha : a ∈ K) (hb : b ∈ K) (hc : c ∈ K)
    (h1 : keyLtB b a = false) (h2 : keyLtB c b = false) : keyLtB c a = false := by
  by_cases hl : keyLtB c a = true
  · exfalso
    by_cases he : pyEqB c b = true
    · have hs := (h.eq_subst c hc b hb he a ha).1
      rw [hs] at hl
      rw [hl] at h1
      exact absurd h1 (by simp)
    · rcases h.eq_or_lt hc hb (by simpa using he) with h3 | h3
      · rw [h3] at h2; exact absurd h2 (by simp)
      · have := h.lt_trans b hb c hc a ha h3 hl
        rw [this] at h1
        exact absurd h1 (by simp)
  · simpa using hl

/-- Inserting permutes the consed list. -/
theorem insertKV_perm (p : Value × Value) (l : List (Value × Value)) :
    (insertKV p l).Perm (p :: l) := by
  induction l with
  | nil => simp [insertKV]
  | cons q qs ih =>
      by_cases hlt : keyLtB q.1 p.1 = true
      · rw [insertKV, if_pos hlt]
        exact (ih.cons q).trans (List.Perm.swap p q qs)
      · rw [insertKV, if_neg hlt]

/-- Membership in an inserted list. -/
theorem mem_insertKV {p x : Value × Value} {l : List (Value × Value)} :
    x ∈ insertKV p l ↔ x = p ∨ x ∈ l := by
  rw [(insertKV_perm p l).mem_iff]
  simp

/-- The sort permutes its input. -/
theorem isortKV_perm (l : List (Value × Value)) : (isortKV l).Perm l := by
  induction l with
  | nil => simp [isortKV]
  | cons p ps ih => exact (insertKV_perm p (isortKV ps)).trans (ih.cons p)

/-- Membership in the sorted list. -/
theorem mem_isortKV {x : Value × Value} {l : List (Value × Value)} :
    x ∈ isortKV l ↔ x ∈ l :=
  (isortKV_perm l).mem_iff

/-- The ascending (non-strict) sortedness predicate produced by the sort:
no later element's key is `<` an earlier element's key. -/
def SortedKV (l : List (Value × Value)) : Prop :=
  l.Pairwise (fun a b => keyLtB b.1 a.1 = false)

/-- Inserting into a sorted run whose keys are covered by the hypothesis
list keeps it sorted. -/
theorem insertKV_sorted {K : List Value} (h : KeysOK K) (p : Value × Value)
    (l : List (Value × Value)) (hp : p.1 ∈ K) (hl : ∀ q ∈ l, q.1 ∈ K)
    (hs : SortedKV l) : SortedKV (insertKV p l) := by
  induction l with
  | nil => simp [insertKV, SortedKV]
  | cons q qs ih =>
      rw [SortedKV, List.pairwise_cons] at hs
      by_cases hlt : keyLtB q.1 p.1 = true
      · rw [insertKV, if_pos hlt, SortedKV, List.pairwise_cons]
        constructor
        · intro b hb
          rcases mem_insertKV.mp hb with hb | hb
          · rw [hb]
            exact h.lt_asym q.1 (hl q (by simp)) p.1 hp hlt
          · exact hs.1 b hb
        · exact ih (fun r hr => hl r (by simp [hr])) hs.2
      · rw [insertKV, if_neg hlt, SortedKV, List.pairwise_cons]
        constructor
        · intro b hb
          rcases List.mem_cons.mp hb with hb | hb
          · rw [hb]; simpa using hlt
          · exact h.le_trans hp (hl q (by simp))
              (hl b (by simp [hb])) (by simpa using hlt) (hs.1 b hb)
        · exact List.Pairwise.cons hs.1 hs.2

/-- The stable insertion sort is sorted when the keys satisfy the local
order hypotheses. -/
theorem isortKV_sorted {K : List Value} (h : KeysOK K) (l : List (Value × Value))
    (hl : ∀ q ∈ l, q.1 ∈ K) : SortedKV (isortKV l) := by
  induction l with
  | nil => simp [isortKV, SortedKV]
  | cons p ps ih =>
      rw [isortKV]
      exact insertKV_sorted h p (isortKV ps) (hl p (by simp))
        (fun q hq => hl q (by simp [mem_isortKV.mp hq]))
        (ih (fun q hq => hl q (by simp [hq])))

/-- Inserting an element whose key is not `==` to `k` leaves the `k`-class
of the list unchanged. -/
theorem insertKV_filter_ne (p : Value × Value) (l : List (Value × Value)) (k : Value)
    (hp : pyEqB p.1 k = false) :
    (insertKV p l).filter (fun q => pyEqB q.1 k) = l.filter (fun q => pyEqB q.1 k) := by
  induction l with
  | nil => simp [insertKV, List.filter, hp]
  | cons q qs ih =>
      by_cases hlt : keyLtB q.1 p.1 = true
      · rw [insertKV, if_pos hlt]
        by_cases hq : pyEqB q.1 k = true
        · simp only [List.filter, hq, ih]
        · simp only [List.filter, Bool.not_eq_true] at hq
          simp only [List.filter, hq, ih]
      · rw [insertKV, if_neg hlt]
        simp only [List.filter, hp]

/-- Inserting an element of the `k`-class puts it in front of the class —
each list element strictly below it is, by coherence and substitution,
outside the class. -/
theorem insertKV_filter_eq {K : List Value} (h : KeysOK K) (p : Value × Value)
    (l : List (Value × Value)) (k : Value) (hkK : k ∈ K) (hp : p.1 ∈ K)
    (hl : ∀ q ∈ l, q.1 ∈ K) (hpk : pyEqB p.1 k = true) (hs : SortedKV l) :
    (insertKV p l).filter (fun q => pyEqB q.1 k) =
      p :: l.filter (fun q => pyEqB q.1 k) := by
  induction l with
  | nil => simp [insertKV, List.filter, hpk]
  | cons q qs ih =>
      rw [SortedKV, List.pairwise_cons] at hs
      by_cases hlt : keyLtB q.1 p.1 = true
      · have hqk : pyEqB q.1 k = false := by
          by_cases hq : pyEqB q.1 k = true
          · exfalso
            have hqK := hl q (by simp)
            have h1 := (h.eq_subst p.1 hp k hkK hpk q.1 hqK).2
            have h2 := (h.eq_subst q.1 hqK k hkK hq k hkK).1
            rw [h.lt_irrefl hkK] at h2
            rw [h1, h2] at hlt
            exact absurd hlt (by simp)
          · simpa using hq
        rw [insertKV, if_pos hlt]
        simp only [List.filter, hqk]
        exact ih (fun r hr => hl r (by simp [hr])) hs.2
      · rw [insertKV, if_neg hlt]
        simp only [List.filter, hpk]

/-- Stability: sorting does not change the contents or the order of any
`==`-class of the keys. -/
theorem isortKV_filter {K : List Value} (h : KeysOK K) (l : List (Value × Value))
    (hl : ∀ q ∈ l, q.1 ∈ K) (k : Value) (hkK : k ∈ K) :
    (isortKV l).filter (fun q => pyEqB q.1 k) = l.filter (fun q => pyEqB q.1 k) := by
  induction l with
  | nil => rfl
  | cons p ps ih =>
      rw [isortKV]
      have hmem : ∀ q ∈ isortKV ps, q.1 ∈ K :=
        fun q hq => hl q (by simp [mem_isortKV.mp hq])
      have hsorted : SortedKV (isortKV ps) :=
        isortKV_sorted h ps (fun q hq => hl q (by simp [hq]))
      by_cases hp : pyEqB p.1 k = true
      · rw [insertKV_filter_eq h p (isortKV ps) k hkK (hl p (by simp)) hmem hp hsorted]
        rw [ih (fun q hq => hl q (by simp [hq]))]
        simp only [List.filter, hp]
      · rw [insertKV_filter_ne p (isortKV ps) k (by simpa using hp)]
        rw [ih (fun q hq => hl q (by simp [hq]))]
        simp only [List.filter, Bool.not_eq_true] at hp
        simp only [List.filter, hp]

/-- `gosplit` splits its input: run then remainder. -/
theorem gosplit_append (k : Value) (l : List (Value × Value)) :
    (gosplit k l).1 ++ (gosplit k l).2 = l := by
  induction l with
  | nil => rfl
  | cons p ps ih =>
      by_cases hp : pyEqB p.1 k = true
      · simp only [gosplit, hp, if_pos, List.cons_append, ih]
      · simp [gosplit, hp]

/-- Every pair of the run belongs to the `==`-class of the split key. -/
theorem gosplit_run_mem (k : Value) (l : List (Value × Value)) :
    ∀ q ∈ (gosplit k l).1, pyEqB q.1 k = true := by
  induction l with
  | nil => simp [gosplit]
  | cons p ps ih =>
      by_cases hp : pyEqB p.1 k = true
      · simp only [gosplit, hp, if_pos]
        intro q hq
        rcases List.mem_cons.mp hq with hq | hq
        · rw [hq]; exact hp
        · exact ih q hq
      · simp [gosplit, hp]

/-- The first pair of the remainder is outside the class. -/
theorem gosplit_rest_first (k : Value) (l : List (Value × Value))
    {q : Value × Value} {tl : List (Value × Value)}
    (h : (gosplit k l).2 = q :: tl) : pyEqB q.1 k = false := by
  induction l with
  | nil => simp [gosplit] at h
  | cons p ps ih =>
      by_cases hp : pyEqB p.1 k = true
      · rw [gosplit, if_pos hp] at h
        exact ih h
      · rw [gosplit, if_neg hp] at h
        have : p = q := by
          have := List.cons.injEq p ps q tl ▸ h
          exact (List.cons.inj h).1
        rw [← this]
        simpa using hp

/-- With sorted input, no pair of the remainder is in the class of the
head's key: the remainder's first pair is strictly above it, and
substitution pushes the bound to every later pair. -/
theorem gosplit_rest_no_class {K : List Value} (h : KeysOK K)
    (p : Value × Value) (ps : List (Value × Value))
    (hp : p.1 ∈ K) (hps : ∀ q ∈ ps, q.1 ∈ K) (hs : SortedKV (p :: ps)) :
    ∀ y ∈ (gosplit p.1 ps).2, pyEqB y.1 p.1 = false := by
  rcases hrest : (gosplit p.1 ps).2 with _ | ⟨hd, tl⟩
  · simp
  · have hfirst : pyEqB hd.1 p.1 = false := gosplit_rest_first p.1 ps hrest
    have hsuffix : (gosplit p.1 ps).2.Sublist ps := by
      conv_rhs => rw [← gosplit_append p.1 ps]
      exact (List.sublist_append_right _ _)
    have hrestK : ∀ y ∈ (gosplit p.1 ps).2, y.1 ∈ K :=
      fun y hy => hps y (hsuffix.mem hy)
    have hrest_sorted : SortedKV (gosplit p.1 ps).2 := by
      rw [SortedKV, List.pairwise_cons] at hs
      exact hs.2.sublist hsuffix
    have hp_lt_hd : keyLtB p.1 hd.1 = true := by
      have hd_mem_ps : hd ∈ ps := hsuffix.mem (by simp [hrest])
      have hd_le : keyLtB hd.1 p.1 = false := by
        rw [SortedKV, List.pairwise_cons] at hs
        exact hs.1 hd hd_mem_ps
      rcases h.eq_or_lt hp (hps hd hd_mem_ps) (by
          rw [pyEqB_symm]; exact hfirst) with h1 | h1
      · exact h1
      · rw [h1] at hd_le; exact absurd hd_le (by simp)
    intro y hy
    rcases List.mem_cons.mp hy with hy2 | hy2
    · rw [hy2]; exact hfirst
    · by_cases hyc : pyEqB y.1 p.1 = true
      · exfalso
        have hyK : y.1 ∈ K := hrestK y (by rw [hrest]; simp [hy2])
        have hy_lt_hd : keyLtB y.1 hd.1 = true := by
          have := (h.eq_subst y.1 hyK p.1 hp hyc hd.1
            (hrestK hd (by rw [hrest]; simp))).1
          rw [this]; exact hp_lt_hd
        have : keyLtB y.1 hd.1 = false := by
          rw [hrest, SortedKV, List.pairwise_cons] at hrest_sorted
          exact hrest_sorted.1 y hy2
        rw [this] at hy_lt_hd
        exact absurd hy_lt_hd (by simp)
      · simpa using hyc

/-- `==` on the keys is transitive through a shared middle key. -/
theorem KeysOK.eq_trans_mid {K : List Value} (h : KeysOK K) {a b c : Value}
    (ha : a ∈ K) (hb : b ∈ K) (hc : c ∈ K)
    (hba : pyEqB b a = true) (hbc : pyEqB b c = true) : pyEqB a c = true := by
  have hcoh := h.eq_coh a ha c hc
  have hs := h.eq_subst b hb a ha hba c hc
  have hbco := h.eq_coh b hb c hc
  rw [hbc] at hbco
  have h1 : keyLtB a c = false := by
    rw [← hs.1]
    cases hlt : keyLtB b c
    · rfl
    · rw [hlt] at hbco; exact absurd hbco.symm (by simp)
  have h2 : keyLtB c a = false := by
    rw [← hs.2]
    cases hlt : keyLtB c b
    · rfl
    · rw [hlt] at hbco; exact absurd hbco.symm (by simp)
  rw [hcoh, h1, h2]
  rfl

/-- With sorted input, every pair of the remainder has a key strictly above
the head's key. -/
theorem gosplit_rest_keys_gt {K : List Value} (h : KeysOK K)
    (p : Value × Value) (ps : List (Value × Value))
    (hp : p.1 ∈ K) (hps : ∀ q ∈ ps, q.1 ∈ K) (hs : SortedKV (p :: ps)) :
    ∀ y ∈ (gosplit p.1 ps).2, keyLtB p.1 y.1 = true := by
  intro y hy
  have hsuffix : (gosplit p.1 ps).2.Sublist ps := by
    conv_rhs => rw [← gosplit_append p.1 ps]
    exact List.sublist_append_right _ _
  have hymem : y ∈ ps := hsuffix.mem hy
  have hyK : y.1 ∈ K := hps y hymem
  have hy_le : keyLtB y.1 p.1 = false := by
    rw [SortedKV, List.pairwise_cons] at hs
    exact hs.1 y hymem
  have hne : pyEqB p.1 y.1 = false := by
    rw [pyEqB_symm]
    exact gosplit_rest_no_class h p ps hp hps hs y hy
  rcases h.eq_or_lt hp hyK hne with h1 | h1
  · exact h1
  · rw [h1] at hy_le; exact absurd hy_le (by simp)

/-- With sorted input, the `==`-class of the head key inside the whole list
is exactly the head followed by the run. -/
theorem sorted_filter_class {K : List Value} (h : KeysOK K)
    (p : Value × Value) (ps : List (Value × Value))
    (hp : p.1 ∈ K) (hps : ∀ q ∈ ps, q.1 ∈ K) (hs : SortedKV (p :: ps)) :
    (p :: ps).filter (fun q => pyEqB q.1 p.1) = p :: (gosplit p.1 ps).1 := by
  have hrun : (gosplit p.1 ps).1.filter (fun q => pyEqB q.1 p.1) = (gosplit p.1 ps).1 :=
    List.filter_eq_self.mpr (fun q hq => gosplit_run_mem p.1 ps q hq)
  have hrest : (gosplit p.1 ps).2.filter (fun q => pyEqB q.1 p.1) = [] :=
    List.filter_eq_nil_iff.mpr (fun q hq => by
      simp [gosplit_rest_no_class h p ps hp hps hs q hq])
  have hsplit : ps.filter (fun q => pyEqB q.1 p.1) = (gosplit p.1 ps).1 := by
    conv_lhs => rw [← gosplit_append p.1 ps]
    rw [List.filter_append, hrun, hrest, List.append_nil]
  simp only [List.filter, h.eq_refl hp, hsplit]

/-- `itertools.groupby` over a sorted pair list: the group keys are keys of
input pairs, strictly ascending (hence one group per distinct key); every
input pair belongs to some group's class; and each group's values are
exactly the values of its key's `==`-class, in list order. -/
theorem pyGroupby_spec {K : List Value} (h : KeysOK K) :
    ∀ l : List (Value × Value), (∀ q ∈ l, q.1 ∈ K) → SortedKV l →
    (∀ g ∈ pyGroupby l, ∃ q ∈ l, q.1 = g.1) ∧
    ((pyGroupby l).Pairwise (fun g g2 => keyLtB g.1 g2.1 = true)) ∧
    (∀ q ∈ l, ∃ g ∈ pyGroupby l, pyEqB q.1 g.1 = true) ∧
    (∀ g ∈ pyGroupby l, g.2 = (l.filter (fun q => pyEqB q.1 g.1)).map (fun q => q.2))
  | [], _, _ => by simp [pyGroupby]
  | p :: ps, hl, hs => by
      have hpK : p.1 ∈ K := hl p (by simp)
      have hpsK : ∀ q ∈ ps, q.1 ∈ K := fun q hq => hl q (by simp [hq])
      have hrun_sub : (gosplit p.1 ps).1.Sublist ps := by
        conv_rhs => rw [← gosplit_append p.1 ps]
        exact List.sublist_append_left _ _
      have hrest_sub : (gosplit p.1 ps).2.Sublist ps := by
        conv_rhs => rw [← gosplit_append p.1 ps]
        exact List.sublist_append_right _ _
      have hrestK : ∀ q ∈ (gosplit p.1 ps).2, q.1 ∈ K :=
        fun q hq => hpsK q (hrest_sub.mem hq)
      have hrest_sorted : SortedKV (gosplit p.1 ps).2 := by
        rw [SortedKV, List.pairwise_cons] at hs
        exact hs.2.sublist hrest_sub
      have IH := pyGroupby_spec h (gosplit p.1 ps).2 hrestK hrest_sorted
      have hunfold : pyGroupby (p :: ps) =
          (p.1, p.2 :: (gosplit p.1 ps).1.map (fun q => q.2)) ::
            pyGroupby (gosplit p.1 ps).2 := by
        simp [pyGroupby]
      refine ⟨?_, ?_, ?_, ?_⟩
      · rw [hunfold]
        intro g hg
        rcases List.mem_cons.mp hg with hg | hg
        · exact ⟨p, by simp, by rw [hg]⟩
        · obtain ⟨q, hq, hqg⟩ := IH.1 g hg
          exact ⟨q, by simp [hrest_sub.mem hq], hqg⟩
      · rw [hunfold, List.pairwise_cons]
        constructor
        · intro g2 hg2
          obtain ⟨y, hy, hyg⟩ := IH.1 g2 hg2
          rw [← hyg]
          exact gosplit_rest_keys_gt h p ps hpK hpsK hs y hy
        · exact IH.2.1
      · intro q hq
        rcases List.mem_cons.mp hq with hq | hq
        · refine ⟨(p.1, p.2 :: (gosplit p.1 ps).1.map (fun r => r.2)), by rw [hunfold]; simp, ?_⟩
          rw [hq]
          exact h.eq_refl hpK
        · have : q ∈ (gosplit p.1 ps).1 ++ (gosplit p.1 ps).2 := by
            rw [gosplit_append]; exact hq
          rcases List.mem_append.mp this with hq2 | hq2
          · refine ⟨(p.1, p.2 :: (gosplit p.1 ps).1.map (fun r => r.2)),
              by rw [hunfold]; simp, ?_⟩
            exact gosplit_run_mem p.1 ps q hq2
          · obtain ⟨g, hg, hqg⟩ := IH.2.2.1 q hq2
            exact ⟨g, by rw [hunfold]; simp [hg], hqg⟩
      · intro g hg
        rw [hunfold] at hg
        rcases List.mem_cons.mp hg with hg | hg
        · rw [hg]
          simp only
          rw [sorted_filter_class h p ps hpK hpsK hs]
          simp
        · obtain ⟨y, hy, hyg⟩ := IH.1 g hg
          have hyK : y.1 ∈ K := hrestK y hy
          have hgK : g.1 ∈ K := hyg ▸ hyK
          have hpg : pyEqB p.1 g.1 = false := by
            rw [← hyg, pyEqB_symm]
            exact gosplit_rest_no_class h p ps hpK hpsK hs y hy
          have hrun_ne : ∀ q ∈ (gosplit p.1 ps).1, pyEqB q.1 g.1 = false := by
            intro q hq
            by_cases hc : pyEqB q.1 g.1 = true
            · exfalso
              have hqp : pyEqB q.1 p.1 = true := gosplit_run_mem p.1 ps q hq
              have hqK : q.1 ∈ K := hpsK q (hrun_sub.mem hq)
              have := h.eq_trans_mid hpK hqK hgK hqp hc
              rw [this] at hpg
              exact absurd hpg (by simp)
            · simpa using hc
          have hfilter : (p :: ps).filter (fun q => pyEqB q.1 g.1) =
              (gosplit p.1 ps).2.filter (fun q => pyEqB q.1 g.1) := by
            have h1 : (gosplit p.1 ps).1.filter (fun q => pyEqB q.1 g.1) = [] :=
              List.filter_eq_nil_iff.mpr (fun q hq => by simp [hrun_ne q hq])
            have h2 : ps.filter (fun q => pyEqB q.1 g.1) =
                (gosplit p.1 ps).2.filter (fun q => pyEqB q.1 g.1) := by
              conv_lhs => rw [← gosplit_append p.1 ps]
              rw [List.filter_append, h1, List.nil_append]
            simp only [List.filter, hpg, h2]
          rw [hfilter]
          exact IH.2.2.2 g hg
termination_by l => l.length
decreasing_by
  simp only [List.length_cons]
  exact Nat.lt_succ_of_le (gosplit_rest_length _ _)

/-- A successful projection produces one row per record. -/
theorem _selectT_length (fields : List Value) :
    ∀ res keys : List Value, _selectT fields res = some keys → keys.length = res.length := by
  intro res
  induction res with
  | nil =>
      intro keys h
      have h2 : ([] : List Value) = keys := Option.some.inj h
      simp [← h2]
  | cons r rs ih =>
      intro keys h
      simp only [_selectT, Option.bind_eq_bind, Option.bind_eq_some] at h
      obtain ⟨vs, hvs, keys2, hkeys2, heq⟩ := h
      have h2 : Value.tuple vs :: keys2 = keys := Option.some.inj heq
      rw [← h2]
      simp [ih keys2 hkeys2]

/-- The rows of a successful grouped projection, pointwise: each row is the
tuple of `_make_group_by_field` outputs over the projection fields. -/
theorem omapGB_forall2 (gbs : List Value) (g : Value × List Value) :
    ∀ fields vals : List Value, omapGB gbs fields g = some vals →
    List.Forall₂ (fun f v => _make_group_by_field gbs f g = some v) fields vals := by
  intro fields
  induction fields with
  | nil =>
      intro vals h
      have h2 : ([] : List Value) = vals := Option.some.inj h
      rw [← h2]
      exact List.Forall₂.nil
  | cons f fs ih =>
      intro vals h
      simp only [omapGB, Option.bind_eq_bind, Option.bind_eq_some] at h
      obtain ⟨v, hv, vals2, hvals2, heq⟩ := h
      have h2 : v :: vals2 = vals := Option.some.inj heq
      rw [← h2]
      exact List.Forall₂.cons hv (ih vals2 hvals2)

/-- A successful `_selectG` relates groups to rows pointwise. -/
theorem _selectG_forall2 (gbs fields : List Value) :
    ∀ (gs : List (Value × List Value)) (rows : List Value),
    _selectG gbs fields gs = some rows →
    List.Forall₂ (fun g row => ∃ vals : List Value,
      row = Value.tuple vals ∧
      List.Forall₂ (fun f v => _make_group_by_field gbs f g = some v) fields vals)
      gs rows := by
  intro gs
  induction gs with
  | nil =>
      intro rows h
      have h2 : ([] : List Value) = rows := Option.some.inj h
      rw [← h2]
      exact List.Forall₂.nil
  | cons g gs ih =>
      intro rows h
      simp only [_selectG, Option.bind_eq_bind, Option.bind_eq_some] at h
      obtain ⟨vals, hvals, rows2, hrows2, heq⟩ := h
      have h2 : Value.tuple vals :: rows2 = rows := Option.some.inj heq
      rw [← h2]
      exact List.Forall₂.cons ⟨vals, rfl, omapGB_forall2 gbs g fields vals hvals⟩
        (ih rows2 hrows2)

/-- Transfer a pointwise relation along a key projection of the left list,
using left-membership. -/
theorem forall2_key_transfer {A B : Type} (f : A → B) (P : A → Value → Prop)
    (Q : B → Value → Prop) :
    ∀ (gs : List A) (rows : List Value),
    (∀ g ∈ gs, ∀ r, P g r → Q (f g) r) →
    List.Forall₂ P gs rows → List.Forall₂ Q (gs.map f) rows := by
  intro gs
  induction gs with
  | nil =>
      intro rows _ h
      cases h
      simp
  | cons g gs ih =>
      intro rows himp h
      cases h with
      | cons hP hrest =>
          exact List.Forall₂.cons (himp g (by simp) _ hP)
            (ih _ (fun g2 hg2 r hr => himp g2 (by simp [hg2]) r hr) hrest)

/-- The records of `res` whose computed key (read off the parallel list
`keys`) compares `==` to `k`, in input order — the spec's group `G`. -/
def specGroupRecords (keys res : List Value) (k : Value) : List Value :=
  ((keys.zip res).filter (fun q => pyEqB q.1 k)).map (fun q => q.2)

/-- Pointwise strengthening of `Pairwise` using list membership. -/
theorem pairwise_imp_mem {A : Type} {R S : A → A → Prop} :
    ∀ l : List A, (∀ a ∈ l, ∀ b ∈ l, R a b → S a b) → l.Pairwise R → l.Pairwise S := by
  intro l
  induction l with
  | nil => intro _ _; exact List.Pairwise.nil
  | cons x xs ih =>
      intro himp h
      rw [List.pairwise_cons] at h ⊢
      exact ⟨fun b hb => himp x (by simp) b (by simp [hb]) (h.1 b hb),
        ih (fun a ha b hb => himp a (by simp [ha]) b (by simp [hb])) h.2⟩

/-- Claim C3: with `group_by` present (and the other output stages inert:
no flatten, no distinct, no return shape), a successful execution
materialises the filtered records, keys each by the tuple of `group_by`
field values, and emits exactly one row per distinct key in ascending
sorted-by-key order — the emitted keys are strictly `<`-increasing, pairwise
un-`==`, each is a computed key, and every computed key is `==` to exactly
one of them; the i-th row is the tuple whose j-th value is `K[idx]` when
projection field j has `field_index` `idx` in the `group_by` list
(structural equality), and otherwise that field evaluated, as an aggregate,
over the group's records in input order.  The order hypotheses `KeysOK`
state that Python's `<`/`==` behave as a strict total preorder on the
concrete keys, which execution (whose sort is only defined on pairwise
comparable keys) does not itself guarantee. -/
theorem C3_group_by_pipeline (q : SelectQuery) (gbs rs filtered keys rows : List Value)
    (hg : q.group_by = some gbs) (hf : q.flatten = false) (hd : q.distinct = false)
    (hr : q.return_type = Option.none)
    (hw : _where q.where_ rs = some filtered)
    (hk : _selectT gbs filtered = some keys)
    (hok : KeysOK keys)
    (hcall : q.call rs = some rows) :
    ∃ ks : List Value,
      ks.Pairwise (fun a b => keyLtB a b = true) ∧
      ks.Pairwise (fun a b => pyEqB a b = false) ∧
      (∀ k ∈ ks, k ∈ keys) ∧
      (∀ k ∈ keys, ∃ k2 ∈ ks, pyEqB k k2 = true) ∧
      List.Forall₂ (fun k row => ∃ vals : List Value,
        row = Value.tuple vals ∧
        List.Forall₂ (fun f v =>
          match field_index f gbs with
          | some idx => pyGetItem k (Value.int idx) = some v
          | Option.none => call f (Value.list (specGroupRecords keys filtered k)) = some v)
          q.fields vals) ks rows := by
  -- reduce the call to grouping followed by the grouped projection
  rw [SelectQuery.call, hw, hg, hf, hd, hr] at hcall
  simp only [Option.bind_eq_bind, Option.some_bind, _flatten, Bool.false_eq_true,
    if_neg, _distinct, _returning, ite_false, Option.bind_eq_some] at hcall
  obtain ⟨gs, hgs, rows2, hrows2, hrows⟩ := hcall
  rw [Option.some.inj hrows] at hrows2
  -- unfold _group
  rw [_group, hk] at hgs
  simp only [Option.bind_eq_bind, Option.some_bind, Option.bind_eq_some] at hgs
  obtain ⟨S, hS, hgs2⟩ := hgs
  have hgs3 : pyGroupby S = gs := Option.some.inj hgs2
  -- the sort succeeded: extract the sorted list
  have hlen : keys.length = filtered.length := _selectT_length gbs filtered keys hk
  have hSval : S = isortKV (keys.zip filtered) := by
    rw [pySortedByKey] at hS
    by_cases hac : allComparable ((keys.zip filtered).map (fun p => p.1)) = true
    · rw [if_pos hac] at hS
      exact (Option.some.inj hS).symm
    · rw [if_neg hac] at hS
      exact absurd hS (by simp)
  -- memberships of the pair list's keys
  have hzipK : ∀ qp ∈ keys.zip filtered, qp.1 ∈ keys := by
    intro qp hqp
    cases qp with
    | mk a b => exact (List.mem_zip hqp).1
  have hSK : ∀ qp ∈ S, qp.1 ∈ keys := by
    intro qp hqp
    rw [hSval] at hqp
    exact hzipK qp (mem_isortKV.mp hqp)
  have hS_sorted : SortedKV S := by
    rw [hSval]
    exact isortKV_sorted hok (keys.zip filtered) hzipK
  have hspec := pyGroupby_spec hok S hSK hS_sorted
  rw [hgs3] at hspec
  -- the emitted keys
  refine ⟨gs.map (fun g => g.1), ?_, ?_, ?_, ?_, ?_⟩
  · rw [List.pairwise_map]
    exact hspec.2.1
  · rw [List.pairwise_map]
    refine pairwise_imp_mem gs ?_ hspec.2.1
    intro a ha b hb hlt
    have haK : a.1 ∈ keys := by
      obtain ⟨qa, hqa, hqa2⟩ := hspec.1 a ha
      rw [← hqa2]; exact hSK qa hqa
    have hbK : b.1 ∈ keys := by
      obtain ⟨qb, hqb, hqb2⟩ := hspec.1 b hb
      rw [← hqb2]; exact hSK qb hqb
    rw [hok.eq_coh a.1 haK b.1 hbK, hlt]
    rfl
  · intro k hk2
    obtain ⟨g, hg2, hgk⟩ := List.mem_map.mp hk2
    obtain ⟨qg, hqg, hqg2⟩ := hspec.1 g hg2
    rw [← hgk, ← hqg2]
    exact hSK qg hqg
  · intro k hkmem
    obtain ⟨i, hilt, hi⟩ := List.mem_iff_getElem.mp hkmem
    have hif : i < filtered.length := by omega
    have hiz : i < (keys.zip filtered).length := by
      rw [List.length_zip]
      omega
    have hpair : (keys.zip filtered)[i] = (k, filtered[i]) := by
      rw [List.getElem_zip, hi]
    have hmem : (k, filtered[i]) ∈ S := by
      rw [hSval, mem_isortKV, ← hpair]
      exact List.getElem_mem hiz
    obtain ⟨g, hg2, hgk⟩ := hspec.2.2.1 (k, filtered[i]) hmem
    exact ⟨g.1, List.mem_map.mpr ⟨g, hg2, rfl⟩, hgk⟩
  · have hforall := _selectG_forall2 gbs q.fields gs rows hrows2
    refine forall2_key_transfer (fun g => g.1) _ _ gs rows ?_ hforall
    intro g hgmem row hP
    obtain ⟨vals, hrow, hvals⟩ := hP
    refine ⟨vals, hrow, ?_⟩
    refine List.Forall₂.imp ?_ hvals
    intro f v hfv
    rw [_make_group_by_field] at hfv
    have hgK : g.1 ∈ keys := by
      obtain ⟨qg, hqg, hqg2⟩ := hspec.1 g hgmem
      rw [← hqg2]; exact hSK qg hqg
    have hcontents : g.2 = specGroupRecords keys filtered g.1 := by
      rw [hspec.2.2.2 g hgmem, specGroupRecords, hSval,
        isortKV_filter hok (keys.zip filtered) hzipK g.1 hgK]
    cases hidx : field_index f gbs with
    | some idx =>
        rw [hidx] at hfv
        simpa using hfv
    | none =>
        rw [hidx] at hfv
        rw [← hcontents]
        simpa using hfv

/-- Witness record constructor: a two-attribute record. -/
def c3obj (x y : Int) : Value := Value.obj [("x", Value.int x), ("y", Value.int y)]

/-- Witness query: `SELECT o.x, sum(o.y) GROUP BY o.x`. -/
def c3q : SelectQuery :=
  ⟨[Value.fAttr "x", Value.fAgg .sum [Value.fAttr "y"] "sum"], false, false,
    Option.none, some [Value.fAttr "x"], Option.none⟩

/-- Witness input records. -/
def c3rs : List Value := [c3obj 2 1, c3obj 1 5, c3obj 2 3]

/-- The computed group keys of the witness input. -/
def c3keys : List Value :=
  [Value.tuple [Value.int 2], Value.tuple [Value.int 1], Value.tuple [Value.int 2]]

/-- The expected output rows: ascending by key, sums per group. -/
def c3rows : List Value :=
  [Value.tuple [Value.int 1, Value.int 5], Value.tuple [Value.int 2, Value.int 4]]

/-- Witness for C3: the concrete query above, with the order hypotheses
checked on the concrete keys and the conclusion delivered by the claim's
theorem. -/
theorem C3_group_by_pipeline_witness :
    c3q.call c3rs = some c3rows ∧
    _where c3q.where_ c3rs = some c3rs ∧
    _selectT [Value.fAttr "x"] c3rs = some c3keys ∧
    KeysOK c3keys ∧
    (∃ ks : List Value,
      ks.Pairwise (fun a b => keyLtB a b = true) ∧
      ks.Pairwise (fun a b => pyEqB a b = false) ∧
      (∀ k ∈ ks, k ∈ c3keys) ∧
      (∀ k ∈ c3keys, ∃ k2 ∈ ks, pyEqB k k2 = true) ∧
      List.Forall₂ (fun k row => ∃ vals : List Value,
        row = Value.tuple vals ∧
        List.Forall₂ (fun f v =>
          match field_index f [Value.fAttr "x"] with
          | some idx => pyGetItem k (Value.int idx) = some v
          | Option.none => call f (Value.list (specGroupRecords c3keys c3rs k)) = some v)
          c3q.fields vals) ks c3rows) := by
  have hok : KeysOK c3keys := ⟨by decide, by decide, by decide, by decide, by decide⟩
  have hk : _selectT [Value.fAttr "x"] c3rs = some c3keys := by
    simp [c3rs, c3keys, c3obj, _selectT, omapCall, call, getattrV]
  have hcall : c3q.call c3rs = some c3rows := by
    simp [c3q, c3rs, c3rows, c3obj, SelectQuery.call, _where, _selectT, omapCall, call,
      getattrV, _flatten, oflatten, _distinct, _returning, _is_mapper, allMapper, _group,
      pySortedByKey, allComparable, pyLt, pyLtSeq, pyEqB, pyEqList, isortKV, insertKV,
      keyLtB, pyGroupby, gosplit, _selectG, omapGB, _make_group_by_field, field_index,
      fieldIndexAux, _equals, pyGetItem, indexKey, normIndex, omapCols, omapOver,
      aggSem, sumInts, sumIntsAux, asInt, funcSem]
  exact ⟨hcall, rfl, hk, hok,
    C3_group_by_pipeline c3q [Value.fAttr "x"] c3rs c3rs c3keys c3rows
      rfl rfl rfl rfl rfl hk hok hcall⟩
